import Mathlib

set_option maxHeartbeats 1000000

/-!
Verification of the PebbleDB request-admission pipeline: the pattern
router and middleware composer, the error translator, the cookie-carried
JWT authentication middleware with refresh-token rotation, the tenant
database middleware, and the pooled per-tenant connection resolver.

The definitions below are shallow embeddings of the Go source
(internal/server, internal/database, the auth middleware and
UpdateAuthCookie).  External collaborators that are not part of the
repository (the JWKS fetcher, the JWT verifier, the refresh endpoint,
and the storage-handle constructor) are modelled as oracle parameters,
matching the call signatures used by the source.
-/

namespace PebbleDB

/-! ## JSON values

Go's `encoding/json` decodes a cookie payload into a
`map[string]interface{}`; values are nulls, booleans, numbers, strings,
arrays and nested objects.  We model the (integer-numbered,
escape-free-string) fragment that the middleware manipulates.  Objects
are association lists in a fixed order; Go maps are unordered, so this
order is a canonical presentation choice that no theorem depends on.
-/

mutual
inductive Json where
  | null : Json
  | bool (b : Bool) : Json
  | num (n : Int) : Json
  | str (s : String) : Json
  | arr (items : JsonList) : Json
  | obj (fields : JsonFields) : Json

inductive JsonList where
  | nil : JsonList
  | cons (hd : Json) (tl : JsonList) : JsonList

inductive JsonFields where
  | nil : JsonFields
  | cons (key : String) (val : Json) (tl : JsonFields) : JsonFields
end

/-- Left brace character (0x7b). -/
def lbrace : Char := Char.ofNat 123

/-- Right brace character (0x7d). -/
def rbrace : Char := Char.ofNat 125

/-- Decimal digit character for a digit value. -/
def digitChar (d : Nat) : Char := Char.ofNat (48 + d)

/-- Base-10 character rendering of a natural number, as Go prints it. -/
def natChars (n : Nat) : List Char :=
  if n = 0 then ['0'] else (Nat.digits 10 n).reverse.map digitChar

/-- Base-10 character rendering of an integer, as Go prints an int64. -/
def intChars (i : Int) : List Char :=
  if i < 0 then '-' :: natChars i.natAbs else natChars i.toNat

mutual
/-- Compact serialization of a JSON value: models Go json.Marshal on the
escape-free fragment (Go emits no whitespace and we model strings that
need no escaping). -/
def printJson : Json → List Char
  | .null => 'n' :: 'u' :: ['l', 'l']
  | .bool true => 't' :: 'r' :: ['u', 'e']
  | .bool false => 'f' :: 'a' :: ['l', 's', 'e']
  | .num n => intChars n
  | .str s => '"' :: s.data ++ ['"']
  | .arr xs => '[' :: printJsonList xs ++ [']']
  | .obj fs => lbrace :: printJsonFields fs ++ [rbrace]

/-- Comma-separated serialization of array items. -/
def printJsonList : JsonList → List Char
  | .nil => []
  | .cons v .nil => printJson v
  | .cons v (.cons w tl) => printJson v ++ ',' :: printJsonList (.cons w tl)

/-- Comma-separated serialization of object fields. -/
def printJsonFields : JsonFields → List Char
  | .nil => []
  | .cons k v .nil => '"' :: k.data ++ '"' :: ':' :: printJson v
  | .cons k v (.cons k2 w tl) =>
      ('"' :: k.data ++ '"' :: ':' :: printJson v) ++
        ',' :: printJsonFields (.cons k2 w tl)
end

/-- A character that Go's JSON encoder writes verbatim inside a string
literal: printable ASCII other than quote and backslash. -/
def plainChar (c : Char) : Bool :=
  decide (32 ≤ c.toNat) && decide (c.toNat < 127) && c ≠ '"' && c ≠ '\\'

/-- A string made only of verbatim-encodable characters. -/
def plainStr (s : String) : Bool := s.data.all plainChar

mutual
/-- Well-formedness: every string in the value is escape-free ASCII, so
our compact printer agrees with Go json.Marshal byte-for-byte. -/
def wfJson : Json → Bool
  | .null => true
  | .bool _ => true
  | .num _ => true
  | .str s => plainStr s
  | .arr xs => wfJsonList xs
  | .obj fs => wfJsonFields fs

/-- Well-formedness of array items. -/
def wfJsonList : JsonList → Bool
  | .nil => true
  | .cons v tl => wfJson v && wfJsonList tl

/-- Well-formedness of object fields. -/
def wfJsonFields : JsonFields → Bool
  | .nil => true
  | .cons k v tl => plainStr k && wfJson v && wfJsonFields tl
end

/-- Map read: first field with the given key, as Go map indexing. -/
def lookupField : JsonFields → String → Option Json
  | .nil, _ => none
  | .cons k v tl, key => if k = key then some v else lookupField tl key

/-- Map write: Go map assignment replaces the value of an existing key
and otherwise adds the binding. -/
def setField : JsonFields → String → Json → JsonFields
  | .nil, key, v => .cons key v .nil
  | .cons k w tl, key, v =>
      if k = key then .cons k v tl else .cons k w (setField tl key v)

theorem lookupField_setField_self :
    ∀ (fs : JsonFields) (k : String) (v : Json),
      lookupField (setField fs k v) k = some v
  | .nil, k, v => by simp [setField, lookupField]
  | .cons k' w tl, k, v => by
      by_cases h : k' = k
      · simp [setField, h, lookupField]
      · simp [setField, h, lookupField, lookupField_setField_self tl k v]

theorem lookupField_setField_other :
    ∀ (fs : JsonFields) (k k' : String) (v : Json), k' ≠ k →
      lookupField (setField fs k v) k' = lookupField fs k'
  | .nil, k, k', v, h => by
      simp [setField, lookupField, Ne.symm h]
  | .cons k2 w tl, k, k', v, h => by
      by_cases h2 : k2 = k
      · subst h2
        simp [setField, lookupField, Ne.symm h]
      · by_cases h3 : k2 = k'
        · subst h3
          simp [setField, h2, lookupField]
        · simp [setField, h2, lookupField, h3,
            lookupField_setField_other tl k k' v h]

/-! ## JSON parsing

`json.Unmarshal` into `map[string]interface{}` is modelled by a
recursive-descent parser over the compact grammar that `printJson`
emits (integer numbers, escape-free strings, no interstitial
whitespace).  The parser is fuelled for termination; the top-level
entry point supplies more fuel than any input can consume. -/

/-- Digit-string value, big-endian: how a decimal numeral is read. -/
def digitsVal (cs : List Char) : Nat :=
  cs.foldl (fun a c => a * 10 + (c.toNat - 48)) 0

/-- Read a maximal run of decimal digits; fails when there is none. -/
def parseNatRaw (input : List Char) : Option (Nat × List Char) :=
  let ds := input.takeWhile Char.isDigit
  if ds.isEmpty then none
  else some (digitsVal ds, input.dropWhile Char.isDigit)

/-- Scan a string body up to the closing quote (escape-free fragment). -/
def scanStr : List Char → Option (List Char × List Char)
  | [] => none
  | c :: rest =>
      if c = '"' then some ([], rest)
      else
        match scanStr rest with
        | some (s, r) => some (c :: s, r)
        | none => none

mutual
/-- Parse one JSON value from the head of the input. -/
def parseJson : Nat → List Char → Option (Json × List Char)
  | 0, _ => none
  | _ + 1, [] => none
  | fuel + 1, c :: rest =>
      if c = 'n' then
        match rest with
        | 'u' :: 'l' :: 'l' :: r => some (.null, r)
        | _ => none
      else if c = 't' then
        match rest with
        | 'r' :: 'u' :: 'e' :: r => some (.bool true, r)
        | _ => none
      else if c = 'f' then
        match rest with
        | 'a' :: 'l' :: 's' :: 'e' :: r => some (.bool false, r)
        | _ => none
      else if c = '"' then
        match scanStr rest with
        | some (s, r) => some (.str (String.mk s), r)
        | none => none
      else if c = '[' then
        match parseArr fuel rest with
        | some (xs, r) => some (.arr xs, r)
        | none => none
      else if c = lbrace then
        match parseObj fuel rest with
        | some (fs, r) => some (.obj fs, r)
        | none => none
      else if c = '-' then
        match parseNatRaw rest with
        | some (n, r) => some (.num (-(n : Int)), r)
        | none => none
      else if c.isDigit then
        match parseNatRaw (c :: rest) with
        | some (n, r) => some (.num (n : Int), r)
        | none => none
      else none

/-- Parse the items of an array, input positioned just after `[`. -/
def parseArr : Nat → List Char → Option (JsonList × List Char)
  | 0, _ => none
  | _ + 1, [] => none
  | fuel + 1, c :: rest =>
      if c = ']' then some (.nil, rest)
      else
        match parseJson fuel (c :: rest) with
        | some (v, r) =>
            match parseArrTail fuel r with
            | some (tl, r2) => some (.cons v tl, r2)
            | none => none
        | none => none

/-- Parse the rest of an array after one item: `]` or `,` item ... -/
def parseArrTail : Nat → List Char → Option (JsonList × List Char)
  | 0, _ => none
  | _ + 1, [] => none
  | fuel + 1, c :: rest =>
      if c = ']' then some (.nil, rest)
      else if c = ',' then
        match parseJson fuel rest with
        | some (v, r) =>
            match parseArrTail fuel r with
            | some (tl, r2) => some (.cons v tl, r2)
            | none => none
        | none => none
      else none

/-- Parse the members of an object, input positioned just after the
opening brace. -/
def parseObj : Nat → List Char → Option (JsonFields × List Char)
  | 0, _ => none
  | _ + 1, [] => none
  | fuel + 1, c :: rest =>
      if c = rbrace then some (.nil, rest)
      else if c = '"' then
        match scanStr rest with
        | some (k, r) =>
            match r with
            | ':' :: r2 =>
                match parseJson fuel r2 with
                | some (v, r3) =>
                    match parseObjTail fuel r3 with
                    | some (tl, r4) => some (.cons (String.mk k) v tl, r4)
                    | none => none
                | none => none
            | _ => none
        | none => none
      else none

/-- Parse the rest of an object after one member. -/
def parseObjTail : Nat → List Char → Option (JsonFields × List Char)
  | 0, _ => none
  | _ + 1, [] => none
  | fuel + 1, c :: rest =>
      if c = rbrace then some (.nil, rest)
      else if c = ',' then
        match rest with
        | '"' :: r0 =>
            match scanStr r0 with
            | some (k, r) =>
                match r with
                | ':' :: r2 =>
                    match parseJson fuel r2 with
                    | some (v, r3) =>
                        match parseObjTail fuel r3 with
                        | some (tl, r4) => some (.cons (String.mk k) v tl, r4)
                        | none => none
                    | none => none
                | _ => none
            | none => none
        | _ => none
      else none
end

/-- Full-input JSON decoding: models json.Unmarshal, which fails unless
the whole input is consumed.  The fuel is a generous bound on the
recursion depth of the descent (Go's parser is not fuelled; two units
per input character dominate every possible consumption). -/
def jsonUnmarshal (input : List Char) : Option Json :=
  match parseJson (2 * input.length + 2) input with
  | some (v, []) => some v
  | _ => none

mutual
/-- Node count of a JSON value, a lower bound on the parser fuel. -/
def sizeJson : Json → Nat
  | .null => 1
  | .bool _ => 1
  | .num _ => 1
  | .str _ => 1
  | .arr xs => sizeJsonList xs + 1
  | .obj fs => sizeJsonFields fs + 1

/-- Node count of array items. -/
def sizeJsonList : JsonList → Nat
  | .nil => 1
  | .cons v tl => sizeJson v + sizeJsonList tl + 1

/-- Node count of object fields. -/
def sizeJsonFields : JsonFields → Nat
  | .nil => 1
  | .cons _ v tl => sizeJson v + sizeJsonFields tl + 1
end

/-- The closing of an array after its first item, as printed. -/
def printArrTail : JsonList → List Char
  | .nil => [']']
  | .cons v tl => ',' :: printJson v ++ printArrTail tl

/-- The closing of an object after its first member, as printed. -/
def printObjTail : JsonFields → List Char
  | .nil => [rbrace]
  | .cons k v tl => ',' :: '"' :: k.data ++ '"' :: ':' :: printJson v ++ printObjTail tl

/-- The head of the trailing input is not a digit (so a numeral parse
stops exactly at the printed boundary). -/
def headSafe : List Char → Bool
  | [] => true
  | c :: _ => !c.isDigit

/-! ### Helper lemmas for the print/parse round trip -/

theorem takeWhile_append_stop (p : Char → Bool) :
    ∀ (xs rest : List Char), xs.all p = true →
      (∀ c, rest.head? = some c → p c = false) →
      (xs ++ rest).takeWhile p = xs ∧ (xs ++ rest).dropWhile p = rest
  | [], rest, _, h2 => by
      cases rest with
      | nil => simp
      | cons c r => simp [List.takeWhile, List.dropWhile, h2 c rfl]
  | x :: xs, rest, h1, h2 => by
      simp only [List.all_cons, Bool.and_eq_true] at h1
      obtain ⟨ht, hd⟩ := takeWhile_append_stop p xs rest h1.2 h2
      simp [List.takeWhile_cons, List.dropWhile_cons, h1.1, ht, hd]

theorem digitChar_isDigit {d : Nat} (h : d < 10) :
    (digitChar d).isDigit = true := by
  interval_cases d <;> decide

theorem charVal_digitChar {d : Nat} (h : d < 10) :
    (digitChar d).toNat - 48 = d := by
  interval_cases d <;> decide

theorem digit_ne {c c' : Char} (h : c.isDigit = true)
    (h' : c'.isDigit = false) : c ≠ c' := by
  intro e; subst e; rw [h] at h'; cases h'

theorem natChars_all_digit (n : Nat) :
    (natChars n).all Char.isDigit = true := by
  unfold natChars
  split
  · decide
  · simp only [List.all_eq_true]
    intro c hc
    simp only [List.mem_map, List.mem_reverse] at hc
    obtain ⟨d, hd, rfl⟩ := hc
    exact digitChar_isDigit (Nat.digits_lt_base (by norm_num) hd)

theorem natChars_ne_nil (n : Nat) : natChars n ≠ [] := by
  unfold natChars
  split
  · simp
  · simp_all [Nat.digits_ne_nil_iff_ne_zero]

theorem foldl_digitChar :
    ∀ (l : List Nat), (∀ d ∈ l, d < 10) → ∀ (acc : Nat),
      List.foldl (fun a c => a * 10 + (c.toNat - 48)) acc (l.map digitChar) =
        List.foldl (fun a d => a * 10 + d) acc l
  | [], _, acc => rfl
  | d :: tl, h, acc => by
      have hd : d < 10 := h d (by simp)
      simp only [List.map_cons, List.foldl_cons, charVal_digitChar hd]
      exact foldl_digitChar tl (fun x hx => h x (by simp [hx])) _

theorem foldl_base10 :
    ∀ (l : List Nat) (acc : Nat),
      List.foldl (fun a d => a * 10 + d) acc l =
        acc * 10 ^ l.length + Nat.ofDigits 10 l.reverse
  | [], acc => by simp
  | d :: tl, acc => by
      simp only [List.foldl_cons, foldl_base10 tl, List.reverse_cons,
        Nat.ofDigits_append, List.length_cons, List.length_reverse]
      simp [Nat.ofDigits_singleton, pow_succ]
      ring

theorem digitsVal_natChars (n : Nat) : digitsVal (natChars n) = n := by
  unfold natChars
  split
  · simp_all [digitsVal]
  · unfold digitsVal
    rw [foldl_digitChar _
      (fun d hd => Nat.digits_lt_base (by norm_num) (List.mem_reverse.mp hd)),
      foldl_base10]
    simp [Nat.ofDigits_digits]

theorem parseNatRaw_natChars (n : Nat) (rest : List Char)
    (h : headSafe rest = true) :
    parseNatRaw (natChars n ++ rest) = some (n, rest) := by
  have h2 : ∀ c, rest.head? = some c → Char.isDigit c = false := by
    cases rest with
    | nil => intro c hc; cases hc
    | cons c' r =>
        intro c hc
        simp only [List.head?] at hc
        cases hc
        simpa [headSafe] using h
  obtain ⟨ht, hd⟩ := takeWhile_append_stop Char.isDigit (natChars n) rest
    (natChars_all_digit n) h2
  have hne : (natChars n).isEmpty = false := by
    rcases hcn : natChars n with _ | ⟨c, cs⟩
    · exact absurd hcn (natChars_ne_nil n)
    · rfl
  unfold parseNatRaw
  simp [ht, hd, hne, digitsVal_natChars]

theorem scanStr_append :
    ∀ (s rest : List Char), s.all plainChar = true →
      scanStr (s ++ '"' :: rest) = some (s, rest)
  | [], rest, _ => by simp [scanStr]
  | c :: s, rest, h => by
      simp only [List.all_cons, Bool.and_eq_true] at h
      have hcq : c ≠ '"' := by
        intro e; subst e; exact absurd h.1 (by decide)
      simp [scanStr, hcq, scanStr_append s rest h.2]

theorem strMk_data : ∀ (s : String), String.mk s.data = s
  | ⟨_⟩ => rfl

theorem headSafe_printArrTail (xs : JsonList) (rest : List Char) :
    headSafe (printArrTail xs ++ rest) = true := by
  cases xs <;> simp [printArrTail, headSafe]

theorem headSafe_printObjTail (fs : JsonFields) (rest : List Char) :
    headSafe (printObjTail fs ++ rest) = true := by
  cases fs <;> simp [printObjTail, headSafe, rbrace]

theorem printList_close :
    ∀ (v : Json) (tl : JsonList) (rest : List Char),
      printJsonList (.cons v tl) ++ ']' :: rest =
        printJson v ++ (printArrTail tl ++ rest)
  | v, .nil, rest => by simp [printJsonList, printArrTail]
  | v, .cons w tl2, rest => by
      have ih := printList_close w tl2 rest
      simp only [printJsonList, printArrTail, List.cons_append,
        List.append_assoc] at ih ⊢
      rw [ih]

theorem printFields_close :
    ∀ (k : String) (v : Json) (tl : JsonFields) (rest : List Char),
      printJsonFields (.cons k v tl) ++ rbrace :: rest =
        '"' :: (k.data ++ '"' :: ':' :: (printJson v ++ (printObjTail tl ++ rest)))
  | k, v, .nil, rest => by simp [printJsonFields, printObjTail]
  | k, v, .cons k2 w tl2, rest => by
      have ih := printFields_close k2 w tl2 rest
      simp only [printJsonFields, printObjTail, List.cons_append,
        List.append_assoc] at ih ⊢
      rw [ih]

theorem one_le_sizeJson (v : Json) : 1 ≤ sizeJson v := by
  cases v <;> simp [sizeJson]

theorem one_le_sizeJsonList (xs : JsonList) : 1 ≤ sizeJsonList xs := by
  cases xs <;> simp [sizeJsonList]

theorem one_le_sizeJsonFields (fs : JsonFields) : 1 ≤ sizeJsonFields fs := by
  cases fs <;> simp [sizeJsonFields]

/-- The first character of a printed value is never a structural
delimiter, so array/object parsers fall through to the value parser. -/
theorem printJson_head (v : Json) :
    ∃ c cs, printJson v = c :: cs ∧ c ≠ ']' ∧ c ≠ ',' ∧ c ≠ rbrace := by
  cases v with
  | null => exact ⟨'n', _, rfl, by decide, by decide, by decide⟩
  | bool b =>
      cases b
      · exact ⟨'f', _, rfl, by decide, by decide, by decide⟩
      · exact ⟨'t', _, rfl, by decide, by decide, by decide⟩
  | num n =>
      by_cases hn : n < 0
      · refine ⟨'-', natChars n.natAbs, ?_, by decide, by decide, by decide⟩
        simp [printJson, intChars, hn]
      · rcases hcn : natChars n.toNat with _ | ⟨c, cs⟩
        · exact absurd hcn (natChars_ne_nil _)
        · have hcd : c.isDigit = true := by
            have := natChars_all_digit n.toNat
            rw [hcn] at this
            simp only [List.all_cons, Bool.and_eq_true] at this
            exact this.1
          refine ⟨c, cs, ?_, digit_ne hcd (by decide),
            digit_ne hcd (by decide), digit_ne hcd (by decide)⟩
          simp [printJson, intChars, hn, hcn]
  | str s => exact ⟨'"', _, rfl, by decide, by decide, by decide⟩
  | arr xs => exact ⟨'[', _, rfl, by decide, by decide, by decide⟩
  | obj fs => exact ⟨lbrace, _, rfl, by decide, by decide, by decide⟩

mutual
/-- Parsing inverts printing for well-formed values: json.Unmarshal of
json.Marshal output recovers the value. -/
theorem parseJson_print :
    ∀ (v : Json) (fuel : Nat) (rest : List Char),
      wfJson v = true → sizeJson v ≤ fuel → headSafe rest = true →
      parseJson fuel (printJson v ++ rest) = some (v, rest)
  | v, 0, _, _, hf, _ => by
      have := one_le_sizeJson v; omega
  | .null, fuel + 1, rest, _, _, _ => by
      simp [printJson, parseJson]
  | .bool true, fuel + 1, rest, _, _, _ => by
      simp [printJson, parseJson]
  | .bool false, fuel + 1, rest, _, _, _ => by
      simp [printJson, parseJson]
  | .str s, fuel + 1, rest, hwf, _, _ => by
      have hp : s.data.all plainChar = true := by
        simpa [wfJson, plainStr] using hwf
      have hin : printJson (.str s) ++ rest
          = '"' :: (s.data ++ '"' :: rest) := by
        simp [printJson]
      rw [hin]
      simp [parseJson, scanStr_append s.data rest hp, strMk_data]
  | .num n, fuel + 1, rest, _, _, hsafe => by
      by_cases hn : n < 0
      · have hin : printJson (.num n) ++ rest
            = '-' :: (natChars n.natAbs ++ rest) := by
          simp [printJson, intChars, hn]
        rw [hin]
        simp only [parseJson]
        rw [if_neg (by decide : ¬('-' = 'n')), if_neg (by decide : ¬('-' = 't')),
          if_neg (by decide : ¬('-' = 'f')), if_neg (by decide : ¬('-' = '"')),
          if_neg (by decide : ¬('-' = '[')), if_neg (by decide : ¬('-' = lbrace)),
          if_pos (by trivial), parseNatRaw_natChars n.natAbs rest hsafe]
        have hval : (-(n.natAbs : Int)) = n := by omega
        show some (Json.num (-(n.natAbs : Int)), rest) = some (Json.num n, rest)
        rw [hval]
      · rcases hcn : natChars n.toNat with _ | ⟨c, cs⟩
        · exact absurd hcn (natChars_ne_nil _)
        · have hcd : c.isDigit = true := by
            have hall := natChars_all_digit n.toNat
            rw [hcn] at hall
            simp only [List.all_cons, Bool.and_eq_true] at hall
            exact hall.1
          have hin : printJson (.num n) ++ rest = c :: (cs ++ rest) := by
            simp [printJson, intChars, hn, hcn]
          rw [hin]
          simp only [parseJson]
          rw [if_neg (digit_ne hcd (by decide)), if_neg (digit_ne hcd (by decide)),
            if_neg (digit_ne hcd (by decide)), if_neg (digit_ne hcd (by decide)),
            if_neg (digit_ne hcd (by decide)), if_neg (digit_ne hcd (by decide)),
            if_neg (digit_ne hcd (by decide)), if_pos hcd]
          have hback : c :: (cs ++ rest) = natChars n.toNat ++ rest := by
            rw [hcn]; rfl
          rw [hback, parseNatRaw_natChars _ _ hsafe]
          have hval : ((n.toNat : Int)) = n := by omega
          simp [hval]
  | .arr xs, fuel + 1, rest, hwf, hf, _ => by
      have hwx : wfJsonList xs = true := by simpa [wfJson] using hwf
      have hfx : sizeJsonList xs ≤ fuel := by
        simp only [sizeJson] at hf; omega
      have hin : printJson (.arr xs) ++ rest
          = '[' :: (printJsonList xs ++ (']' :: rest)) := by
        simp [printJson]
      rw [hin]
      simp only [parseJson]
      rw [if_neg (by decide : ¬('[' = 'n')), if_neg (by decide : ¬('[' = 't')),
        if_neg (by decide : ¬('[' = 'f')), if_neg (by decide : ¬('[' = '"')),
        if_pos (by trivial), parseArr_print xs fuel rest hwx hfx]
  | .obj fs, fuel + 1, rest, hwf, hf, _ => by
      have hwx : wfJsonFields fs = true := by simpa [wfJson] using hwf
      have hfx : sizeJsonFields fs ≤ fuel := by
        simp only [sizeJson] at hf; omega
      have hin : printJson (.obj fs) ++ rest
          = lbrace :: (printJsonFields fs ++ (rbrace :: rest)) := by
        simp [printJson]
      rw [hin]
      simp only [parseJson]
      rw [if_neg (by decide : ¬(lbrace = 'n')), if_neg (by decide : ¬(lbrace = 't')),
        if_neg (by decide : ¬(lbrace = 'f')), if_neg (by decide : ¬(lbrace = '"')),
        if_neg (by decide : ¬(lbrace = '[')), if_pos (by trivial),
        parseObj_print fs fuel rest hwx hfx]

/-- Array-body parsing inverts printing. -/
theorem parseArr_print :
    ∀ (xs : JsonList) (fuel : Nat) (rest : List Char),
      wfJsonList xs = true → sizeJsonList xs ≤ fuel →
      parseArr fuel (printJsonList xs ++ ']' :: rest) = some (xs, rest)
  | xs, 0, _, _, hf => by
      have := one_le_sizeJsonList xs; omega
  | .nil, fuel + 1, rest, _, _ => by
      simp [printJsonList, parseArr]
  | .cons v tl, fuel + 1, rest, hwf, hf => by
      simp only [wfJsonList, Bool.and_eq_true] at hwf
      have hfv : sizeJson v ≤ fuel := by
        simp only [sizeJsonList] at hf; omega
      have hft : sizeJsonList tl ≤ fuel := by
        simp only [sizeJsonList] at hf; omega
      obtain ⟨c, cs, hpv, hc1, _, _⟩ := printJson_head v
      have hin : printJsonList (.cons v tl) ++ ']' :: rest
          = c :: (cs ++ (printArrTail tl ++ rest)) := by
        rw [printList_close, hpv]; simp
      rw [hin]
      simp only [parseArr]
      rw [if_neg hc1]
      have hj : parseJson fuel (c :: (cs ++ (printArrTail tl ++ rest)))
          = some (v, printArrTail tl ++ rest) := by
        have hback : c :: (cs ++ (printArrTail tl ++ rest))
            = printJson v ++ (printArrTail tl ++ rest) := by
          rw [hpv]; rfl
        rw [hback]
        exact parseJson_print v fuel _ hwf.1 hfv (headSafe_printArrTail tl rest)
      rw [hj]
      simp [parseArrTail_print tl fuel rest hwf.2 hft]

/-- Array-tail parsing inverts printing. -/
theorem parseArrTail_print :
    ∀ (xs : JsonList) (fuel : Nat) (rest : List Char),
      wfJsonList xs = true → sizeJsonList xs ≤ fuel →
      parseArrTail fuel (printArrTail xs ++ rest) = some (xs, rest)
  | xs, 0, _, _, hf => by
      have := one_le_sizeJsonList xs; omega
  | .nil, fuel + 1, rest, _, _ => by
      simp [printArrTail, parseArrTail]
  | .cons v tl, fuel + 1, rest, hwf, hf => by
      simp only [wfJsonList, Bool.and_eq_true] at hwf
      have hfv : sizeJson v ≤ fuel := by
        simp only [sizeJsonList] at hf; omega
      have hft : sizeJsonList tl ≤ fuel := by
        simp only [sizeJsonList] at hf; omega
      have hin : printArrTail (.cons v tl) ++ rest
          = ',' :: (printJson v ++ (printArrTail tl ++ rest)) := by
        simp [printArrTail]
      rw [hin]
      simp only [parseArrTail]
      rw [if_neg (by decide : ¬(',' = ']')), if_pos (by trivial),
        parseJson_print v fuel _ hwf.1 hfv (headSafe_printArrTail tl rest)]
      simp [parseArrTail_print tl fuel rest hwf.2 hft]

/-- Object-body parsing inverts printing. -/
theorem parseObj_print :
    ∀ (fs : JsonFields) (fuel : Nat) (rest : List Char),
      wfJsonFields fs = true → sizeJsonFields fs ≤ fuel →
      parseObj fuel (printJsonFields fs ++ rbrace :: rest) = some (fs, rest)
  | fs, 0, _, _, hf => by
      have := one_le_sizeJsonFields fs; omega
  | .nil, fuel + 1, rest, _, _ => by
      simp [printJsonFields, parseObj]
  | .cons k v tl, fuel + 1, rest, hwf, hf => by
      simp only [wfJsonFields, Bool.and_eq_true] at hwf
      have hfv : sizeJson v ≤ fuel := by
        simp only [sizeJsonFields] at hf; omega
      have hft : sizeJsonFields tl ≤ fuel := by
        simp only [sizeJsonFields] at hf; omega
      have hk : k.data.all plainChar = true := by
        simpa [plainStr] using hwf.1.1
      rw [printFields_close k v tl rest]
      simp only [parseObj]
      rw [if_neg (by decide : ¬('"' = rbrace)), if_pos (by trivial)]
      simp [scanStr_append k.data _ hk,
        parseJson_print v fuel _ hwf.1.2 hfv (headSafe_printObjTail tl rest),
        parseObjTail_print tl fuel rest hwf.2 hft, strMk_data]

/-- Object-tail parsing inverts printing. -/
theorem parseObjTail_print :
    ∀ (fs : JsonFields) (fuel : Nat) (rest : List Char),
      wfJsonFields fs = true → sizeJsonFields fs ≤ fuel →
      parseObjTail fuel (printObjTail fs ++ rest) = some (fs, rest)
  | fs, 0, _, _, hf => by
      have := one_le_sizeJsonFields fs; omega
  | .nil, fuel + 1, rest, _, _ => by
      simp [printObjTail, parseObjTail]
  | .cons k v tl, fuel + 1, rest, hwf, hf => by
      simp only [wfJsonFields, Bool.and_eq_true] at hwf
      have hfv : sizeJson v ≤ fuel := by
        simp only [sizeJsonFields] at hf; omega
      have hft : sizeJsonFields tl ≤ fuel := by
        simp only [sizeJsonFields] at hf; omega
      have hk : k.data.all plainChar = true := by
        simpa [plainStr] using hwf.1.1
      have hin : printObjTail (.cons k v tl) ++ rest
          = ',' :: '"' :: (k.data ++ '"' :: ':' ::
              (printJson v ++ (printObjTail tl ++ rest))) := by
        simp [printObjTail]
      rw [hin]
      simp only [parseObjTail]
      rw [if_neg (by decide : ¬(',' = rbrace)), if_pos (by trivial)]
      simp [scanStr_append k.data _ hk,
        parseJson_print v fuel _ hwf.1.2 hfv (headSafe_printObjTail tl rest),
        parseObjTail_print tl fuel rest hwf.2 hft, strMk_data]
end

mutual
/-- The node count is dominated by twice the printed length. -/
theorem sizeJson_le :
    ∀ (v : Json), sizeJson v ≤ 2 * (printJson v).length
  | .null => by simp [sizeJson, printJson]
  | .bool true => by simp [sizeJson, printJson]
  | .bool false => by simp [sizeJson, printJson]
  | .num n => by
      have h : 0 < (intChars n).length := by
        unfold intChars
        split
        · simp
        · exact List.length_pos.mpr (natChars_ne_nil _)
      simp only [sizeJson, printJson]
      omega
  | .str s => by simp [sizeJson, printJson]; omega
  | .arr .nil => by simp [sizeJson, sizeJsonList, printJson, printJsonList]
  | .arr (.cons v tl) => by
      have h1 := sizeJson_le v
      have h2 := sizeJsonList_le tl
      have hlen : (printJsonList (JsonList.cons v tl)).length + 1
          = (printJson v).length + (printArrTail tl).length := by
        have := congrArg List.length (printList_close v tl [])
        simpa using this
      simp only [sizeJson, sizeJsonList, printJson, List.length_cons,
        List.length_append, List.length_singleton]
      omega
  | .obj .nil => by simp [sizeJson, sizeJsonFields, printJson, printJsonFields]
  | .obj (.cons k v tl) => by
      have h1 := sizeJson_le v
      have h2 := sizeJsonFields_le tl
      have hlen : (printJsonFields (JsonFields.cons k v tl)).length + 1
          = k.data.length + 3 + (printJson v).length + (printObjTail tl).length := by
        have hc := congrArg List.length (printFields_close k v tl [])
        simp only [List.length_cons, List.length_append, List.length_nil] at hc
        omega
      simp only [sizeJson, sizeJsonFields, printJson, List.length_cons,
        List.length_append, List.length_singleton]
      omega

/-- List node count is dominated by twice the printed tail length. -/
theorem sizeJsonList_le :
    ∀ (xs : JsonList), sizeJsonList xs ≤ 2 * (printArrTail xs).length
  | .nil => by simp [sizeJsonList, printArrTail]
  | .cons v tl => by
      have h1 := sizeJson_le v
      have h2 := sizeJsonList_le tl
      simp only [sizeJsonList, printArrTail, List.length_cons,
        List.length_append]
      omega

/-- Field node count is dominated by twice the printed tail length. -/
theorem sizeJsonFields_le :
    ∀ (fs : JsonFields), sizeJsonFields fs ≤ 2 * (printObjTail fs).length
  | .nil => by simp [sizeJsonFields, printObjTail]
  | .cons k v tl => by
      have h1 := sizeJson_le v
      have h2 := sizeJsonFields_le tl
      simp only [sizeJsonFields, printObjTail, List.length_cons,
        List.length_append]
      omega
end

/-- Top-level round trip: unmarshalling a marshalled well-formed value
recovers it exactly. -/
theorem jsonUnmarshal_printJson (v : Json) (h : wfJson v = true) :
    jsonUnmarshal (printJson v) = some v := by
  have hp := parseJson_print v (2 * (printJson v).length + 2) [] h
    (le_trans (sizeJson_le v) (by omega)) rfl
  rw [List.append_nil] at hp
  unfold jsonUnmarshal
  rw [hp]

/-! ## Base64 (standard encoding with padding, as base64.StdEncoding) -/

/-- Standard-alphabet character for a 6-bit group. -/
def b64Char (v : Nat) : Char :=
  if v < 26 then Char.ofNat (65 + v)
  else if v < 52 then Char.ofNat (97 + (v - 26))
  else if v < 62 then Char.ofNat (48 + (v - 52))
  else if v = 62 then '+'
  else '/'

/-- Decode one standard-alphabet character. -/
def b64Val (c : Char) : Option Nat :=
  if 65 ≤ c.toNat ∧ c.toNat ≤ 90 then some (c.toNat - 65)
  else if 97 ≤ c.toNat ∧ c.toNat ≤ 122 then some (c.toNat - 97 + 26)
  else if 48 ≤ c.toNat ∧ c.toNat ≤ 57 then some (c.toNat - 48 + 52)
  else if c = '+' then some 62
  else if c = '/' then some 63
  else none

/-- base64.StdEncoding.EncodeToString over byte values. -/
def encodeB64 : List Nat → List Char
  | [] => []
  | [b1] => [b64Char (b1 / 4), b64Char (b1 % 4 * 16), '=', '=']
  | [b1, b2] =>
      [b64Char (b1 / 4), b64Char (b1 % 4 * 16 + b2 / 16),
       b64Char (b2 % 16 * 4), '=']
  | b1 :: b2 :: b3 :: rest =>
      b64Char (b1 / 4) :: b64Char (b1 % 4 * 16 + b2 / 16) ::
      b64Char (b2 % 16 * 4 + b3 / 64) :: b64Char (b3 % 64) :: encodeB64 rest

/-- base64.StdEncoding.DecodeString: four-character groups, padding only
in the final group.  (Go's default decoder does not reject non-zero
trailing bits, matching the dropped low bits here.) -/
def decodeB64 : List Char → Option (List Nat)
  | [] => some []
  | c1 :: c2 :: c3 :: c4 :: rest =>
      match b64Val c1, b64Val c2 with
      | some v1, some v2 =>
          if c3 = '=' then
            if c4 = '=' ∧ rest = [] then some [v1 * 4 + v2 / 16] else none
          else
            match b64Val c3 with
            | some v3 =>
                if c4 = '=' then
                  if rest = [] then
                    some [v1 * 4 + v2 / 16, v2 % 16 * 16 + v3 / 4]
                  else none
                else
                  match b64Val c4 with
                  | some v4 =>
                      match decodeB64 rest with
                      | some bs =>
                          some ((v1 * 4 + v2 / 16) :: (v2 % 16 * 16 + v3 / 4) ::
                            (v3 % 4 * 64 + v4) :: bs)
                      | none => none
                  | none => none
            | none => none
      | _, _ => none
  | _ => none

theorem b64Val_b64Char : ∀ v, v < 64 → b64Val (b64Char v) = some v := by
  decide

theorem b64Char_ne_pad : ∀ v, v < 64 → b64Char v ≠ '=' := by
  decide

/-- Decoding inverts encoding on byte values. -/
theorem decodeB64_encodeB64 :
    ∀ (bs : List Nat), (∀ b ∈ bs, b < 256) →
      decodeB64 (encodeB64 bs) = some bs
  | [], _ => rfl
  | [b1], h => by
      have hb1 : b1 < 256 := h b1 (by simp)
      have hv1 : b1 / 4 < 64 := by omega
      have hv2 : b1 % 4 * 16 < 64 := by omega
      simp only [encodeB64, decodeB64, b64Val_b64Char _ hv1,
        b64Val_b64Char _ hv2]
      simp
      all_goals omega
  | [b1, b2], h => by
      have hb1 : b1 < 256 := h b1 (by simp)
      have hb2 : b2 < 256 := h b2 (by simp)
      have hv1 : b1 / 4 < 64 := by omega
      have hv2 : b1 % 4 * 16 + b2 / 16 < 64 := by omega
      have hv3 : b2 % 16 * 4 < 64 := by omega
      simp only [encodeB64, decodeB64, b64Val_b64Char _ hv1,
        b64Val_b64Char _ hv2]
      rw [if_neg (b64Char_ne_pad _ hv3)]
      simp only [b64Val_b64Char _ hv3]
      simp
      all_goals omega
  | b1 :: b2 :: b3 :: rest, h => by
      have hb1 : b1 < 256 := h b1 (by simp)
      have hb2 : b2 < 256 := h b2 (by simp)
      have hb3 : b3 < 256 := h b3 (by simp)
      have hrest : ∀ b ∈ rest, b < 256 := fun b hb => h b (by simp [hb])
      have hv1 : b1 / 4 < 64 := by omega
      have hv2 : b1 % 4 * 16 + b2 / 16 < 64 := by omega
      have hv3 : b2 % 16 * 4 + b3 / 64 < 64 := by omega
      have hv4 : b3 % 64 < 64 := by omega
      simp only [encodeB64, decodeB64, b64Val_b64Char _ hv1,
        b64Val_b64Char _ hv2]
      rw [if_neg (b64Char_ne_pad _ hv3)]
      simp only [b64Val_b64Char _ hv3]
      rw [if_neg (b64Char_ne_pad _ hv4)]
      simp only [b64Val_b64Char _ hv4, decodeB64_encodeB64 rest hrest]
      simp
      all_goals omega

/-! ## ASCII facts: printed JSON is single-byte clean -/

/-- Characters that occupy one byte in Go's string representation. -/
def asciiChar (c : Char) : Bool := decide (c.toNat < 128)

theorem asciiChar_digitChar {d : Nat} (h : d < 10) :
    asciiChar (digitChar d) = true := by
  interval_cases d <;> decide

theorem natChars_ascii (n : Nat) : ∀ c ∈ natChars n, asciiChar c = true := by
  unfold natChars
  split
  · intro c hc; simp at hc; subst hc; decide
  · intro c hc
    simp only [List.mem_map, List.mem_reverse] at hc
    obtain ⟨d, hd, rfl⟩ := hc
    exact asciiChar_digitChar (Nat.digits_lt_base (by norm_num) hd)

theorem intChars_ascii (i : Int) : ∀ c ∈ intChars i, asciiChar c = true := by
  unfold intChars
  split
  · intro c hc
    rcases List.mem_cons.mp hc with rfl | hc
    · decide
    · exact natChars_ascii _ c hc
  · exact natChars_ascii _

theorem plain_ascii {c : Char} (h : plainChar c = true) :
    asciiChar c = true := by
  simp only [plainChar, Bool.and_eq_true, decide_eq_true_eq] at h
  simp only [asciiChar, decide_eq_true_eq]
  omega

/-- Membership in a printed key/value pair (shared decomposition). -/
theorem kvChunk_ascii (k : String) (v : Json) (c : Char)
    (hk : plainStr k = true) (hv : ∀ c ∈ printJson v, asciiChar c = true)
    (hc : c ∈ '"' :: k.data ++ '"' :: ':' :: printJson v) :
    asciiChar c = true := by
  rcases List.mem_cons.mp hc with rfl | hc
  · decide
  rcases List.mem_append.mp hc with hc | hc
  · simp only [plainStr, List.all_eq_true] at hk
    exact plain_ascii (hk c hc)
  rcases List.mem_cons.mp hc with rfl | hc
  · decide
  rcases List.mem_cons.mp hc with rfl | hc
  · decide
  exact hv c hc

mutual
/-- Every character of a printed well-formed value is ASCII. -/
theorem printJson_ascii :
    ∀ (v : Json), wfJson v = true → ∀ c ∈ printJson v, asciiChar c = true
  | .null, _ => by
      intro c hc
      simp only [printJson] at hc
      rcases List.mem_cons.mp hc with rfl | hc
      · decide
      rcases List.mem_cons.mp hc with rfl | hc
      · decide
      rcases List.mem_cons.mp hc with rfl | hc
      · decide
      simp at hc; subst hc; decide
  | .bool true, _ => by
      intro c hc
      simp only [printJson] at hc
      fin_cases hc <;> decide
  | .bool false, _ => by
      intro c hc
      simp only [printJson] at hc
      fin_cases hc <;> decide
  | .num n, _ => by
      intro c hc
      exact intChars_ascii n c (by simpa [printJson] using hc)
  | .str s, h => by
      intro c hc
      simp only [printJson] at hc
      rcases List.mem_cons.mp hc with rfl | hc
      · decide
      rcases List.mem_append.mp hc with hc | hc
      · have hp : plainStr s = true := by simpa [wfJson] using h
        simp only [plainStr, List.all_eq_true] at hp
        exact plain_ascii (hp c hc)
      · simp at hc; subst hc; decide
  | .arr xs, h => by
      intro c hc
      simp only [printJson] at hc
      rcases List.mem_cons.mp hc with rfl | hc
      · decide
      rcases List.mem_append.mp hc with hc | hc
      · exact printJsonList_ascii xs (by simpa [wfJson] using h) c hc
      · simp at hc; subst hc; decide
  | .obj fs, h => by
      intro c hc
      simp only [printJson] at hc
      rcases List.mem_cons.mp hc with rfl | hc
      · decide
      rcases List.mem_append.mp hc with hc | hc
      · exact printJsonFields_ascii fs (by simpa [wfJson] using h) c hc
      · simp at hc; subst hc; decide

/-- Every character of a printed well-formed item list is ASCII. -/
theorem printJsonList_ascii :
    ∀ (xs : JsonList), wfJsonList xs = true →
      ∀ c ∈ printJsonList xs, asciiChar c = true
  | .nil, _ => by intro c hc; simp [printJsonList] at hc
  | .cons v .nil, h => by
      intro c hc
      simp only [wfJsonList, Bool.and_eq_true] at h
      exact printJson_ascii v h.1 c (by simpa [printJsonList] using hc)
  | .cons v (.cons w tl), h => by
      intro c hc
      simp only [wfJsonList, Bool.and_eq_true] at h
      simp only [printJsonList] at hc
      rcases List.mem_append.mp hc with hc | hc
      · exact printJson_ascii v h.1 c hc
      rcases List.mem_cons.mp hc with rfl | hc
      · decide
      exact printJsonList_ascii (.cons w tl)
        (by simp [wfJsonList, h.2.1, h.2.2]) c (by simpa [printJsonList] using hc)

/-- Every character of a printed well-formed field list is ASCII. -/
theorem printJsonFields_ascii :
    ∀ (fs : JsonFields), wfJsonFields fs = true →
      ∀ c ∈ printJsonFields fs, asciiChar c = true
  | .nil, _ => by intro c hc; simp [printJsonFields] at hc
  | .cons k v .nil, h => by
      intro c hc
      simp only [wfJsonFields, Bool.and_eq_true] at h
      simp only [printJsonFields] at hc
      exact kvChunk_ascii k v c h.1.1
        (printJson_ascii v h.1.2) hc
  | .cons k v (.cons k2 w tl), h => by
      intro c hc
      simp only [wfJsonFields, Bool.and_eq_true] at h
      simp only [printJsonFields] at hc
      rcases List.mem_append.mp hc with hc | hc
      · exact kvChunk_ascii k v c h.1.1 (printJson_ascii v h.1.2) hc
      rcases List.mem_cons.mp hc with rfl | hc
      · decide
      exact printJsonFields_ascii (.cons k2 w tl)
        (by simp [wfJsonFields, h.2.1.1, h.2.1.2, h.2.2]) c
        (by simpa [printJsonFields] using hc)
end

/-! ## Cookie value encoding -/

/-- Bytes of an ASCII string, as Go views a string as a byte slice. -/
def strBytes (cs : List Char) : List Nat := cs.map Char.toNat

theorem strBytes_lt (cs : List Char) (h : ∀ c ∈ cs, asciiChar c = true) :
    ∀ b ∈ strBytes cs, b < 256 := by
  intro b hb
  simp only [strBytes, List.mem_map] at hb
  obtain ⟨c, hc, rfl⟩ := hb
  have := h c hc
  simp only [asciiChar, decide_eq_true_eq] at this
  omega

theorem map_ofNat_strBytes (cs : List Char) :
    (strBytes cs).map Char.ofNat = cs := by
  simp [strBytes, List.map_map, Function.comp_def, Char.ofNat_toNat]

/-- The literal cookie marker. -/
def b64Marker : List Char := ['b', 'a', 's', 'e', '6', '4', '-']

/-- strings.TrimPrefix with the literal marker: removed when present,
otherwise the value is returned unchanged. -/
def trimB64Marker (cs : List Char) : List Char :=
  if b64Marker.isPrefixOf cs then cs.drop 7 else cs

theorem trimB64Marker_append (x : List Char) :
    trimB64Marker (b64Marker ++ x) = x := by
  unfold trimB64Marker
  rw [if_pos (by rw [List.isPrefixOf_iff_prefix]; exact List.prefix_append _ _)]
  exact List.drop_left b64Marker x

/-- The cookie value written by UpdateAuthCookie for a bundle: the
literal marker followed by the base64 of the marshalled JSON object. -/
def cookieValueOf (fs : JsonFields) : List Char :=
  b64Marker ++ encodeB64 (strBytes (printJson (.obj fs)))

/-- The middleware's cookie decode pipeline: strip the marker,
base64-decode, JSON-parse, and require a JSON object. -/
def decodeCookieValue (cv : List Char) : Option JsonFields :=
  match decodeB64 (trimB64Marker cv) with
  | none => none
  | some bytes =>
      match jsonUnmarshal (bytes.map Char.ofNat) with
      | some (.obj fs) => some fs
      | _ => none

/-- Decoding a written cookie value recovers the bundle. -/
theorem decodeCookieValue_cookieValueOf (fs : JsonFields)
    (h : wfJsonFields fs = true) :
    decodeCookieValue (cookieValueOf fs) = some fs := by
  unfold decodeCookieValue cookieValueOf
  rw [trimB64Marker_append,
    decodeB64_encodeB64 _ (strBytes_lt _ (printJson_ascii (.obj fs) (by simpa [wfJson] using h)))]
  simp [map_ofNat_strBytes,
    jsonUnmarshal_printJson (.obj fs) (by simpa [wfJson] using h)]

/-! ## Server layer (internal/server: errors.go, unnamed server file)

`HTTPError` carries a status code and message; `handleError` is the
error translator at the outermost boundary; `createMethodDispatcher`
dispatches on the HTTP method over a pattern's route list; `Start`
wraps the dispatcher with the registered middlewares in reverse
registration order. -/

/-- A handler failure: either the status+message kind (HTTPError) or
any other Go error, identified by its message. -/
inductive GoError where
  | http (code : Nat) (msg : String)
  | generic (msg : String)
deriving DecidableEq

/-- BadRequest constructor (400). -/
def badRequest (msg : String) : GoError := .http 400 msg

/-- NotFound constructor (404). -/
def notFound (msg : String) : GoError := .http 404 msg

/-- InternalServerError constructor (500). -/
def internalServerError (msg : String) : GoError := .http 500 msg

/-- Unauthorized constructor (401). -/
def unauthorized (msg : String) : GoError := .http 401 msg

/-- What the error translator writes: response status, response body
(the argument of http.Error, which appends a newline on the wire), and
what is logged. -/
structure ErrorWrite where
  status : Nat
  body : String
  logged : Option String
deriving DecidableEq

/-- handleError: an HTTPError is written verbatim; any other error
becomes a 500 with a fixed body, and only the log sees the message. -/
def handleError : GoError → ErrorWrite
  | .http code msg => ⟨code, msg, none⟩
  | .generic msg => ⟨500, "Internal Server Error", some msg⟩

/-- Substring test (used only to state claims about response bodies). -/
def strContains (hay needle : String) : Bool :=
  hay.data.tails.any (fun t => needle.data.isPrefixOf t)

/-- One registered route: method, pattern, and the handler it holds
(handlers are named by an identifier). -/
structure Route where
  method : String
  pattern : String
  handler : Nat
deriving DecidableEq

/-- Outcome of one dispatch: a handler is invoked, or a
Method-Not-Allowed (405) response is written and no handler runs. -/
inductive DispatchResult where
  | invoked (handler : Nat)
  | methodNotAllowed
deriving DecidableEq

/-- createMethodDispatcher: scan the pattern's routes in registration
order, invoke the first whose method matches or is the wildcard "";
fall through to 405. -/
def createMethodDispatcher : List Route → String → DispatchResult
  | [], _ => .methodNotAllowed
  | r :: rest, m =>
      if r.method = "" ∨ r.method = m then .invoked r.handler
      else createMethodDispatcher rest m

/-- addRoute appends to the pattern's route list. -/
def addRoute (routes : List Route) (method pattern : String) (h : Nat) :
    List Route :=
  routes ++ [Route.mk method pattern h]

/-- The middleware application loop of Start: iterate the registered
list from the last index down to 0, wrapping the handler each time. -/
def applyMiddlewares {α : Type} (ms : List (α → α)) (d : α) : α :=
  (ms.reverse).foldl (fun h m => m h) d

theorem applyMiddlewares_nil {α : Type} (d : α) :
    applyMiddlewares [] d = d := rfl

theorem applyMiddlewares_cons {α : Type} (m : α → α) (ms : List (α → α))
    (d : α) : applyMiddlewares (m :: ms) d = m (applyMiddlewares ms d) := by
  simp [applyMiddlewares, List.reverse_cons, List.foldl_append]

/-- Events observed by an instrumented pipeline. -/
inductive PhaseEvent where
  | ingress (i : Nat)
  | handler
  | egress (i : Nat)
deriving DecidableEq

/-- An instrumented middleware: records its ingress event, runs the
inner handler, then records its egress event. -/
def traceMiddleware (i : Nat) :
    (Unit → List PhaseEvent) → (Unit → List PhaseEvent) :=
  fun next _ => PhaseEvent.ingress i :: next () ++ [PhaseEvent.egress i]

/-- An instrumented terminal handler. -/
def baseHandler : Unit → List PhaseEvent := fun _ => [PhaseEvent.handler]

theorem applyMiddlewares_trace :
    ∀ (l : List Nat),
      applyMiddlewares (l.map traceMiddleware) baseHandler ()
        = l.map PhaseEvent.ingress ++
            PhaseEvent.handler :: (l.reverse).map PhaseEvent.egress
  | [] => rfl
  | i :: tl => by
      rw [List.map_cons, applyMiddlewares_cons]
      simp [traceMiddleware, applyMiddlewares_trace tl]

/-! ## Auth middleware (auth.Middleware and UpdateAuthCookie)

The middleware's own control flow is embedded from the source.  The
external collaborators it calls are not part of the repository and are
passed in as oracles with the source's call signatures:
FetchJWKS(url), VerifyJWT(token, jwks), and
RefreshAccessToken(refreshToken, url, key). -/

/-- Configuration fields consumed by the middleware (internal/config). -/
structure Config where
  jwksUrl : String
  authTokenName : String
  tokenRefreshUrl : String
  tokenRefreshKey : String
  cookieDomain : String

/-- A verified token as returned by VerifyJWT; its Claims field is an
interface value that the middleware casts to jwt.MapClaims (the cast
can fail, hence the option). -/
structure Token where
  claims : Option JsonFields

/-- types.RefreshTokenResponse (pkg/types). -/
structure RefreshTokenResponse where
  accessToken : String
  tokenType : String
  expiresIn : Int
  expiresAt : Int
  refreshToken : String
  user : Json

/-- Oracles for the middleware's external collaborators.  Modelled from
the spec: the JWKS fetcher is a blocking retrieval that returns a key
set or fails; the verifier validates a token against the fetched keys;
the refresh endpoint exchanges a refresh token (with the configured
shared credential) for a new token set.  Key sets are opaque handles
here.  `marshalFails` injects the failure of json.Marshal inside
UpdateAuthCookie, which can only occur for values outside our Json
fragment. -/
structure AuthEnv where
  fetchJWKS : String → Option Nat
  verify : Nat → String → Option Token
  refresh : String → String → String → Option RefreshTokenResponse
  marshalFails : Bool

/-- An inbound request as seen by the middleware: its URL path and the
value of the configured auth cookie when present (r.Cookie errors when
the cookie is absent). -/
structure AuthRequest where
  path : String
  cookie : Option (List Char)

/-- Steps of interest performed by the middleware, in order. -/
inductive AuthEvent where
  | jwksFetch
  | cookieRead
  | b64Decode
  | jsonParse
  | verifyCall
  | refreshCall
deriving DecidableEq

/-- The outgoing cookie written by UpdateAuthCookie (http.Cookie). -/
structure SetCookie where
  name : String
  value : List Char
  path : String
  domain : String
  httpOnly : Bool
  secure : Bool
  sameSite : String

/-- How the middleware ends: bypass (next invoked on the original
request), authenticated (next invoked with the claims' sub bound into
the request context), or a typed failure. -/
inductive AuthOutcome where
  | nextUnchanged
  | nextAuthed (sub : Option Json)
  | err (e : GoError)

/-- The middleware's observable result: outcome, the steps it
performed, and the Set-Cookie it wrote, if any. -/
structure AuthResult where
  outcome : AuthOutcome
  events : List AuthEvent
  cookieSet : Option SetCookie

/-- The two bypass patterns are anchored literal regexes
(favicon.ico and robots.txt), so matching is equality with the literal
path; the pattern-compile-error branch in the source is unreachable. -/
def matchesExcluded (p : String) : Bool :=
  p == "/favicon.ico" || p == "/robots.txt"

/-- The four-field merge of a refresh response into the decoded bundle,
exactly as the middleware assigns tokenData. -/
def mergeRefresh (fs : JsonFields) (resp : RefreshTokenResponse) :
    JsonFields :=
  setField (setField (setField (setField fs
    "access_token" (.str resp.accessToken))
    "refresh_token" (.str resp.refreshToken))
    "expires_at" (.num resp.expiresAt))
    "user" resp.user

/-- UpdateAuthCookie: marshal the bundle, base64 it, prepend the
marker, and set an HttpOnly, Secure, SameSite=Lax cookie on Path=/ for
the configured domain.  Fails only if json.Marshal fails. -/
def updateAuthCookie (marshalFails : Bool) (tokenData : JsonFields)
    (authTokenName cookieDomain : String) : Option SetCookie :=
  if marshalFails then none
  else some
    { name := authTokenName
      value := cookieValueOf tokenData
      path := "/"
      domain := cookieDomain
      httpOnly := true
      secure := true
      sameSite := "Lax" }

/-- Events up to and including the JSON parse of the cookie. -/
def evPre : List AuthEvent :=
  [.jwksFetch, .cookieRead, .b64Decode, .jsonParse]

/-- Claims extraction after a successful verification: the MapClaims
cast, then binding claims["sub"] into the request context. -/
def authVerified (tok : Token) (ck : Option SetCookie)
    (evs : List AuthEvent) : AuthResult :=
  match tok.claims with
  | none => ⟨.err (unauthorized "Invalid token claims"), evs, ck⟩
  | some cm => ⟨.nextAuthed (lookupField cm "sub"), evs, ck⟩

/-- The refresh branch, entered when the first verification failed:
require a non-empty string refresh_token, call the refresh endpoint,
merge the response, persist the cookie (failure only logged), and
re-verify the new access token. -/
def authRefreshStage (cfg : Config) (env : AuthEnv) (jwks : Nat)
    (tokenData : JsonFields) : AuthResult :=
  match lookupField tokenData "refresh_token" with
  | some (.str rt) =>
      if rt = "" then
        ⟨.err (unauthorized "Invalid token and no refresh token available"),
          evPre ++ [.verifyCall], none⟩
      else
        match env.refresh rt cfg.tokenRefreshUrl cfg.tokenRefreshKey with
        | none =>
            ⟨.err (unauthorized "Token refresh failed"),
              evPre ++ [.verifyCall, .refreshCall], none⟩
        | some resp =>
            let fs2 := mergeRefresh tokenData resp
            let ck := updateAuthCookie env.marshalFails fs2
              cfg.authTokenName cfg.cookieDomain
            match env.verify jwks resp.accessToken with
            | none =>
                ⟨.err (unauthorized "Invalid refreshed token"),
                  evPre ++ [.verifyCall, .refreshCall, .verifyCall], ck⟩
            | some tok =>
                authVerified tok ck
                  (evPre ++ [.verifyCall, .refreshCall, .verifyCall])
  | _ =>
      ⟨.err (unauthorized "Invalid token and no refresh token available"),
        evPre ++ [.verifyCall], none⟩

/-- After a successful cookie decode: extract the access token, verify
it, and on failure take the refresh branch. -/
def authTokenStage (cfg : Config) (env : AuthEnv) (jwks : Nat)
    (tokenData : JsonFields) : AuthResult :=
  match lookupField tokenData "access_token" with
  | some (.str accessToken) =>
      match env.verify jwks accessToken with
      | some tok => authVerified tok none (evPre ++ [.verifyCall])
      | none => authRefreshStage cfg env jwks tokenData
  | _ => ⟨.err (badRequest "Invalid access token"), evPre, none⟩

/-- The authentication middleware, step for step from the source:
bypass check, JWKS fetch, cookie read, marker strip, base64 decode,
JSON parse, then verification and the refresh branch. -/
def authMiddleware (cfg : Config) (env : AuthEnv) (r : AuthRequest) :
    AuthResult :=
  if matchesExcluded r.path then
    ⟨.nextUnchanged, [], none⟩
  else
    match env.fetchJWKS cfg.jwksUrl with
    | none =>
        ⟨.err (internalServerError "Failed to fetch JWKS"),
          [.jwksFetch], none⟩
    | some jwks =>
        match r.cookie with
        | none =>
            ⟨.err (unauthorized "Authentication required"),
              [.jwksFetch, .cookieRead], none⟩
        | some cv =>
            match decodeB64 (trimB64Marker cv) with
            | none =>
                ⟨.err (badRequest "Invalid token format"),
                  [.jwksFetch, .cookieRead, .b64Decode], none⟩
            | some bytes =>
                match jsonUnmarshal (bytes.map Char.ofNat) with
                | some (.obj tokenData) =>
                    authTokenStage cfg env jwks tokenData
                | _ =>
                    ⟨.err (badRequest "Invalid token JSON"), evPre, none⟩

/-! ## Tenant database middleware (internal/database/middleware.go) -/

/-- The fields of types.JSONRequest that this middleware inspects. -/
structure JSONRequest where
  action : String
  projectID : String
deriving DecidableEq

/-- First field with the given key when it is a string, else the zero
value (how the decoded struct field ends up for our fragment). -/
def getStrField (fs : JsonFields) (k : String) : String :=
  match lookupField fs k with
  | some (.str s) => s
  | _ => ""

/-- json.Unmarshal of the body into a JSONRequest with the error
ignored: an unparseable body leaves the zero value. -/
def parseJSONRequest (body : List Char) : JSONRequest :=
  match jsonUnmarshal body with
  | some (.obj fs) =>
      ⟨getStrField fs "action", getStrField fs "project_id"⟩
  | _ => ⟨"", ""⟩

/-- The actions that skip database-connection injection. -/
def skipDBActions (a : String) : Bool :=
  a == "create_project" || a == "list_projects" ||
    a == "delete_project" || a == "get_project"

/-- A request as seen by the database middleware: method, body
presence/length/content, context values, and the `project` query
parameter (empty when absent, as url.Values.Get returns). -/
structure DBRequest where
  method : String
  hasBody : Bool
  contentLength : Int
  body : List Char
  ctxUser : Option String
  ctxWorkDir : Option String
  queryProject : String

/-- Oracle for GetProjectDB: open-or-reuse a handle for (basePath,
key), or fail. -/
structure DBEnv where
  getProjectDB : String → String → Option Nat

/-- How the database middleware ends: next invoked (with the body the
downstream handler will read, and the injected connection if any), or
a typed failure. -/
inductive DBOutcome where
  | next (bodySeen : List Char) (db : Option Nat)
  | err (e : GoError)
deriving DecidableEq

/-- The database middleware, step for step from the source: for a POST
with a body, read all the bytes, try to parse them (ignoring failure),
and reinstall a reader over the same bytes; skip for project-management
actions; otherwise resolve the tenant connection from the
user/project key and inject it. -/
def dbMiddleware (env : DBEnv) (r : DBRequest) : DBOutcome :=
  let req : JSONRequest :=
    if r.method = "POST" ∧ r.hasBody = true ∧ r.contentLength > 0 then
      parseJSONRequest r.body
    else ⟨"", ""⟩
  if skipDBActions req.action then .next r.body none
  else
    match r.ctxUser with
    | none => .err (badRequest "Missing user context")
    | some userID =>
        if userID = "" then .err (badRequest "Missing user context")
        else
          let projectID :=
            if req.projectID = "" then r.queryProject else req.projectID
          if projectID = "" then .err (badRequest "Missing project ID")
          else
            match r.ctxWorkDir with
            | none => .err (internalServerError "Missing working directory context")
            | some basePath =>
                if basePath = "" then
                  .err (internalServerError "Missing working directory context")
                else
                  match env.getProjectDB (basePath ++ "/projects")
                      (userID ++ "/" ++ projectID) with
                  | none => .err (internalServerError "Failed to load database")
                  | some db => .next r.body (some db)

/-! ## Tenant connection resolver (GetProjectDB, pooled.go)

GetProjectDB is the one piece of shared mutable state: a registry
guarded by a single RWMutex, accessed with double-checked locking.  We
model each concurrent caller as a thread stepping through the
statements of GetProjectDB, with one shared-state access per step:
RLock, read under the read lock, RUnlock, Lock, re-check under the
write lock, NewDB (success or failure), store and Unlock.  The NewDB
constructor is an external primitive; fresh handles are numbered by a
counter, and ghost fields count its invocations and successes per
key. -/

/-- Program points of one GetProjectDB call. -/
inductive RPhase where
  | start
  | rlocked
  | rchecked (seen : Option Nat)
  | wwait
  | wlocked
  | building
  | done (res : Option Nat)
deriving DecidableEq

/-- One caller: its key and program point. -/
structure RThread where
  key : String
  phase : RPhase
deriving DecidableEq

/-- The shared state: RWMutex (reader count and writer flag), the
projectDBs.conns registry, a fresh-handle counter, ghost counters for
NewDB invocations and successes, and the callers. -/
structure RSys where
  readers : Nat
  writer : Bool
  conns : String → Option Nat
  nextId : Nat
  attempts : String → Nat
  successes : String → Nat
  threads : List RThread

/-- Point increment of a counter map. -/
def bump (f : String → Nat) (k : String) : String → Nat :=
  fun k2 => if k2 = k then f k2 + 1 else f k2

/-- Step labels, naming the acting thread. -/
inductive RLabel where
  | rlock (i : Nat)
  | rcheck (i : Nat)
  | runlock (i : Nat)
  | wlock (i : Nat)
  | wcheckHit (i : Nat)
  | wcheckMiss (i : Nat)
  | buildOk (i : Nat)
  | buildFail (i : Nat)

/-- The interleaving semantics of GetProjectDB.  `cf` enables the
NewDB-failure transition.  RLock admits a reader whenever no writer
holds the lock, independent of the number of readers; Lock requires no
readers and no writer. -/
inductive RStep (cf : Bool) : RLabel → RSys → RSys → Prop where
  | rlock {s : RSys} {i : Nat} {k : String}
      (ht : s.threads[i]? = some ⟨k, .start⟩) (hw : s.writer = false) :
      RStep cf (.rlock i) s
        { s with readers := s.readers + 1,
                 threads := s.threads.set i ⟨k, .rlocked⟩ }
  | rcheck {s : RSys} {i : Nat} {k : String}
      (ht : s.threads[i]? = some ⟨k, .rlocked⟩) :
      RStep cf (.rcheck i) s
        { s with threads := s.threads.set i ⟨k, .rchecked (s.conns k)⟩ }
  | runlockHit {s : RSys} {i : Nat} {k : String} {id : Nat}
      (ht : s.threads[i]? = some ⟨k, .rchecked (some id)⟩) :
      RStep cf (.runlock i) s
        { s with readers := s.readers - 1,
                 threads := s.threads.set i ⟨k, .done (some id)⟩ }
  | runlockMiss {s : RSys} {i : Nat} {k : String}
      (ht : s.threads[i]? = some ⟨k, .rchecked none⟩) :
      RStep cf (.runlock i) s
        { s with readers := s.readers - 1,
                 threads := s.threads.set i ⟨k, .wwait⟩ }
  | wlock {s : RSys} {i : Nat} {k : String}
      (ht : s.threads[i]? = some ⟨k, .wwait⟩)
      (hr : s.readers = 0) (hw : s.writer = false) :
      RStep cf (.wlock i) s
        { s with writer := true,
                 threads := s.threads.set i ⟨k, .wlocked⟩ }
  | wcheckHit {s : RSys} {i : Nat} {k : String} {id : Nat}
      (ht : s.threads[i]? = some ⟨k, .wlocked⟩)
      (hc : s.conns k = some id) :
      RStep cf (.wcheckHit i) s
        { s with writer := false,
                 threads := s.threads.set i ⟨k, .done (some id)⟩ }
  | wcheckMiss {s : RSys} {i : Nat} {k : String}
      (ht : s.threads[i]? = some ⟨k, .wlocked⟩)
      (hc : s.conns k = none) :
      RStep cf (.wcheckMiss i) s
        { s with threads := s.threads.set i ⟨k, .building⟩,
                 attempts := bump s.attempts k }
  | buildOk {s : RSys} {i : Nat} {k : String}
      (ht : s.threads[i]? = some ⟨k, .building⟩) :
      RStep cf (.buildOk i) s
        { s with writer := false,
                 conns := fun k2 => if k2 = k then some s.nextId else s.conns k2,
                 nextId := s.nextId + 1,
                 successes := bump s.successes k,
                 threads := s.threads.set i ⟨k, .done (some s.nextId)⟩ }
  | buildFail {s : RSys} {i : Nat} {k : String}
      (hcf : cf = true)
      (ht : s.threads[i]? = some ⟨k, .building⟩) :
      RStep cf (.buildFail i) s
        { s with writer := false,
                 threads := s.threads.set i ⟨k, .done none⟩ }

/-- Reachability by interleaved steps. -/
inductive Reach (cf : Bool) : RSys → RSys → Prop where
  | refl (s : RSys) : Reach cf s s
  | tail {s t u : RSys} {l : RLabel} :
      Reach cf s t → RStep cf l t u → Reach cf s u

/-- The initial state for a list of callers (one key each): empty
registry, free lock, all callers at the entry point. -/
def initSys (ks : List String) : RSys :=
  { readers := 0
    writer := false
    conns := fun _ => none
    nextId := 0
    attempts := fun _ => 0
    successes := fun _ => 0
    threads := ks.map (fun k => ⟨k, .start⟩) }

/-- Phases that hold the write lock. -/
def holdsWrite : RPhase → Bool
  | .wlocked => true
  | .building => true
  | _ => false

/-- Number of callers holding the write lock. -/
def wcount (s : RSys) : Nat :=
  (s.threads.filter (fun t => holdsWrite t.phase)).length

/-- Number of callers running NewDB for a key. -/
def bcount (s : RSys) (k : String) : Nat :=
  (s.threads.filter (fun t => t.key == k && t.phase == RPhase.building)).length

/-- The safety invariant of the double-checked-locking protocol. -/
def Inv (s : RSys) : Prop :=
  (wcount s = if s.writer then 1 else 0)
  ∧ (∀ t ∈ s.threads, t.phase = .building → s.conns t.key = none)
  ∧ (∀ k, s.conns k = none → s.successes k = 0)
  ∧ (∀ k, s.successes k ≤ 1)
  ∧ (∀ t ∈ s.threads, ∀ id, t.phase = .done (some id) →
      s.conns t.key = some id)
  ∧ (∀ t ∈ s.threads, ∀ id, t.phase = .rchecked (some id) →
      s.conns t.key = some id)

/-- NewDB accounting in failure-free executions. -/
def InvA (s : RSys) : Prop :=
  ∀ k, s.attempts k = s.successes k + bcount s k

/-! ### Counting and preservation lemmas for the resolver -/

theorem length_filter_set {α : Type} (p : α → Bool) :
    ∀ (l : List α) (i : Nat) (a b : α), l[i]? = some a →
      ((l.set i b).filter p).length + (if p a then 1 else 0)
        = (l.filter p).length + (if p b then 1 else 0)
  | [], i, a, b, h => by simp at h
  | x :: xs, 0, a, b, h => by
      simp only [List.getElem?_cons_zero, Option.some.injEq] at h
      simp only [List.set_cons_zero, List.filter_cons, ← h]
      by_cases hb : p b <;> by_cases hx : p x <;> simp [hb, hx]
  | x :: xs, i + 1, a, b, h => by
      simp only [List.getElem?_cons_succ] at h
      have ih := length_filter_set p xs i a b h
      simp only [List.set_cons_succ, List.filter_cons]
      by_cases hx : p x <;> simp [hx] <;> omega

theorem length_filter_mono {α : Type} (p q : α → Bool)
    (h : ∀ x, q x = true → p x = true) :
    ∀ l : List α, (l.filter q).length ≤ (l.filter p).length
  | [] => Nat.le_refl _
  | x :: xs => by
      have ih := length_filter_mono p q h xs
      by_cases hq : q x
      · simp [List.filter_cons, hq, h x hq]; omega
      · by_cases hp : p x <;> simp [List.filter_cons, hq, hp] <;> omega

theorem filter_pos_of_mem {α : Type} (p : α → Bool) {l : List α} {x : α}
    (hx : x ∈ l) (hp : p x = true) : 0 < (l.filter p).length := by
  have hm : x ∈ l.filter p := List.mem_filter.mpr ⟨hx, hp⟩
  exact List.length_pos.mpr (List.ne_nil_of_mem hm)

theorem exists_mem_filter_of_pos {α : Type} {p : α → Bool} {l : List α}
    (h : 0 < (l.filter p).length) : ∃ x ∈ l, p x = true := by
  obtain ⟨x, hx⟩ := List.exists_mem_of_ne_nil (l.filter p)
    (by intro he; rw [he] at h; simp at h)
  obtain ⟨hx1, hx2⟩ := List.mem_filter.mp hx
  exact ⟨x, hx1, hx2⟩

theorem forall_mem_set {α : Type} {P : α → Prop} {l : List α} {i : Nat}
    {b : α} (h : ∀ x ∈ l, P x) (hb : P b) : ∀ x ∈ l.set i b, P x :=
  fun x hx => (List.mem_or_eq_of_mem_set hx).elim (h x) (fun he => he ▸ hb)

theorem holdsWrite_start : holdsWrite .start = false := rfl
theorem holdsWrite_rlocked : holdsWrite .rlocked = false := rfl
theorem holdsWrite_rchecked (o : Option Nat) :
    holdsWrite (.rchecked o) = false := rfl
theorem holdsWrite_wwait : holdsWrite .wwait = false := rfl
theorem holdsWrite_wlocked : holdsWrite .wlocked = true := rfl
theorem holdsWrite_building : holdsWrite .building = true := rfl
theorem holdsWrite_done (o : Option Nat) : holdsWrite (.done o) = false := rfl

/-- Every step of GetProjectDB preserves the safety invariant. -/
theorem Inv_step {cf : Bool} {l : RLabel} {s t : RSys}
    (hI : Inv s) (hst : RStep cf l s t) : Inv t := by
  obtain ⟨hW, hB, hC, hD, hE, hF⟩ := hI
  cases hst with
  | @rlock s i k ht hwf =>
      have hcnt := length_filter_set (fun t => holdsWrite t.phase)
        s.threads i ⟨k, .start⟩ ⟨k, .rlocked⟩ ht
      simp [holdsWrite_start, holdsWrite_rlocked] at hcnt
      refine ⟨?_, ?_, hC, hD, ?_, ?_⟩
      · simp only [wcount] at hW ⊢; omega
      · exact forall_mem_set hB (by intro hb; cases hb)
      · exact forall_mem_set hE (by intro id hb; cases hb)
      · exact forall_mem_set hF (by intro id hb; cases hb)
  | @rcheck s i k ht =>
      have hcnt := length_filter_set (fun t => holdsWrite t.phase)
        s.threads i ⟨k, .rlocked⟩ ⟨k, .rchecked (s.conns k)⟩ ht
      simp [holdsWrite_rlocked, holdsWrite_rchecked] at hcnt
      refine ⟨?_, ?_, hC, hD, ?_, ?_⟩
      · simp only [wcount] at hW ⊢; omega
      · exact forall_mem_set hB (by intro hb; cases hb)
      · exact forall_mem_set hE (by intro id hb; cases hb)
      · refine forall_mem_set hF ?_
        intro id hb
        exact RPhase.rchecked.inj hb
  | @runlockHit s i k id ht =>
      have hcnt := length_filter_set (fun t => holdsWrite t.phase)
        s.threads i ⟨k, .rchecked (some id)⟩ ⟨k, .done (some id)⟩ ht
      simp [holdsWrite_rchecked, holdsWrite_done] at hcnt
      refine ⟨?_, ?_, hC, hD, ?_, ?_⟩
      · simp only [wcount] at hW ⊢; omega
      · exact forall_mem_set hB (by intro hb; cases hb)
      · refine forall_mem_set hE ?_
        intro id2 hb
        have hv2 : id = id2 := Option.some.inj (RPhase.done.inj hb)
        subst hv2
        exact hF _ (List.getElem?_mem ht) id rfl
      · exact forall_mem_set hF (by intro id2 hb; cases hb)
  | @runlockMiss s i k ht =>
      have hcnt := length_filter_set (fun t => holdsWrite t.phase)
        s.threads i ⟨k, .rchecked none⟩ ⟨k, .wwait⟩ ht
      simp [holdsWrite_rchecked, holdsWrite_wwait] at hcnt
      refine ⟨?_, ?_, hC, hD, ?_, ?_⟩
      · simp only [wcount] at hW ⊢; omega
      · exact forall_mem_set hB (by intro hb; cases hb)
      · exact forall_mem_set hE (by intro id hb; cases hb)
      · exact forall_mem_set hF (by intro id hb; cases hb)
  | @wlock s i k ht hr hwf =>
      have hcnt := length_filter_set (fun t => holdsWrite t.phase)
        s.threads i ⟨k, .wwait⟩ ⟨k, .wlocked⟩ ht
      simp [holdsWrite_wwait, holdsWrite_wlocked] at hcnt
      rw [hwf] at hW
      simp only [wcount] at hW
      have hW0 : (List.filter (fun t => holdsWrite t.phase) s.threads).length
          = 0 := by simpa using hW
      refine ⟨?_, ?_, hC, hD, ?_, ?_⟩
      · show (List.filter (fun t => holdsWrite t.phase)
            (s.threads.set i ⟨k, RPhase.wlocked⟩)).length
            = if true = true then 1 else 0
        rw [if_pos rfl]
        omega
      · exact forall_mem_set hB (by intro hb; cases hb)
      · exact forall_mem_set hE (by intro id hb; cases hb)
      · exact forall_mem_set hF (by intro id hb; cases hb)
  | @wcheckHit s i k id ht hc =>
      have hcnt := length_filter_set (fun t => holdsWrite t.phase)
        s.threads i ⟨k, .wlocked⟩ ⟨k, .done (some id)⟩ ht
      simp [holdsWrite_wlocked, holdsWrite_done] at hcnt
      have hmem : (⟨k, .wlocked⟩ : RThread) ∈ s.threads :=
        List.getElem?_mem ht
      have hwr : s.writer = true := by
        by_contra hwn
        simp only [Bool.not_eq_true] at hwn
        rw [hwn] at hW
        simp only [wcount] at hW
        have hW0 : (List.filter (fun t => holdsWrite t.phase)
            s.threads).length = 0 := by simpa using hW
        have hpos := filter_pos_of_mem (fun t => holdsWrite t.phase)
          hmem (by rfl)
        omega
      rw [hwr] at hW
      simp only [wcount] at hW
      have hW1 : (List.filter (fun t => holdsWrite t.phase) s.threads).length
          = 1 := by simpa using hW
      refine ⟨?_, ?_, hC, hD, ?_, ?_⟩
      · show (List.filter (fun t => holdsWrite t.phase)
            (s.threads.set i ⟨k, RPhase.done (some id)⟩)).length
            = if false = true then 1 else 0
        rw [if_neg (by decide)]
        omega
      · exact forall_mem_set hB (by intro hb; cases hb)
      · refine forall_mem_set hE ?_
        intro id2 hb
        have hv2 : id = id2 := Option.some.inj (RPhase.done.inj hb)
        subst hv2
        exact hc
      · exact forall_mem_set hF (by intro id2 hb; cases hb)
  | @wcheckMiss s i k ht hc =>
      have hcnt := length_filter_set (fun t => holdsWrite t.phase)
        s.threads i ⟨k, .wlocked⟩ ⟨k, .building⟩ ht
      simp [holdsWrite_wlocked, holdsWrite_building] at hcnt
      refine ⟨?_, ?_, hC, hD, ?_, ?_⟩
      · simp only [wcount] at hW ⊢; omega
      · exact forall_mem_set hB (fun hb => hc)
      · exact forall_mem_set hE (by intro id hb; cases hb)
      · exact forall_mem_set hF (by intro id hb; cases hb)
  | @buildOk s i k ht =>
      have hcnt := length_filter_set (fun t => holdsWrite t.phase)
        s.threads i ⟨k, .building⟩ ⟨k, .done (some s.nextId)⟩ ht
      simp [holdsWrite_building, holdsWrite_done] at hcnt
      have hmem : (⟨k, .building⟩ : RThread) ∈ s.threads :=
        List.getElem?_mem ht
      have hwr : s.writer = true := by
        by_contra hwn
        simp only [Bool.not_eq_true] at hwn
        rw [hwn] at hW
        simp only [wcount] at hW
        have hW0 : (List.filter (fun t => holdsWrite t.phase)
            s.threads).length = 0 := by simpa using hW
        have hpos := filter_pos_of_mem (fun t => holdsWrite t.phase)
          hmem (by rfl)
        omega
      rw [hwr] at hW
      simp only [wcount] at hW
      have hW1 : (List.filter (fun t => holdsWrite t.phase) s.threads).length
          = 1 := by simpa using hW
      have hck : s.conns k = none := hB _ hmem rfl
      have hsk : s.successes k = 0 := hC k hck
      have hcnt0 :
          ((s.threads.set i ⟨k, .done (some s.nextId)⟩).filter
            (fun t => holdsWrite t.phase)).length = 0 := by
        omega
      refine ⟨?_, ?_, ?_, ?_, ?_, ?_⟩
      · show (List.filter (fun t => holdsWrite t.phase)
            (s.threads.set i ⟨k, RPhase.done (some s.nextId)⟩)).length
            = if false = true then 1 else 0
        rw [if_neg (by decide)]
        exact hcnt0
      · intro t2 ht2 hb2
        exfalso
        have ht2b : t2 ∈ s.threads.set i ⟨k, .done (some s.nextId)⟩ := ht2
        have hpos := filter_pos_of_mem (fun t => holdsWrite t.phase) ht2b
          (by simp [hb2, holdsWrite_building])
        omega
      · intro k2 hk2
        by_cases he : k2 = k
        · subst he
          simp at hk2
        · simp only [if_neg he] at hk2
          simp only [bump, if_neg he]
          exact hC k2 hk2
      · intro k2
        by_cases he : k2 = k
        · subst he
          simp [bump, hsk]
        · simp only [bump, if_neg he]
          exact hD k2
      · intro t2 ht2 id2 hd2
        rcases List.mem_or_eq_of_mem_set ht2 with hm | rfl
        · by_cases he : t2.key = k
          · exfalso
            have hmm := hE t2 hm id2 hd2
            rw [he, hck] at hmm
            cases hmm
          · simp [he]
            exact hE t2 hm id2 hd2
        · have hv2 : s.nextId = id2 :=
            Option.some.inj (RPhase.done.inj hd2)
          subst hv2
          simp
      · intro t2 ht2 id2 hd2
        rcases List.mem_or_eq_of_mem_set ht2 with hm | rfl
        · by_cases he : t2.key = k
          · exfalso
            have hmm := hF t2 hm id2 hd2
            rw [he, hck] at hmm
            cases hmm
          · simp [he]
            exact hF t2 hm id2 hd2
        · cases hd2
  | @buildFail s i k hcf ht =>
      have hcnt := length_filter_set (fun t => holdsWrite t.phase)
        s.threads i ⟨k, .building⟩ ⟨k, .done none⟩ ht
      simp [holdsWrite_building, holdsWrite_done] at hcnt
      have hmem : (⟨k, .building⟩ : RThread) ∈ s.threads :=
        List.getElem?_mem ht
      have hwr : s.writer = true := by
        by_contra hwn
        simp only [Bool.not_eq_true] at hwn
        rw [hwn] at hW
        simp only [wcount] at hW
        have hW0 : (List.filter (fun t => holdsWrite t.phase)
            s.threads).length = 0 := by simpa using hW
        have hpos := filter_pos_of_mem (fun t => holdsWrite t.phase)
          hmem (by rfl)
        omega
      rw [hwr] at hW
      simp only [wcount] at hW
      have hW1 : (List.filter (fun t => holdsWrite t.phase) s.threads).length
          = 1 := by simpa using hW
      refine ⟨?_, ?_, hC, hD, ?_, ?_⟩
      · show (List.filter (fun t => holdsWrite t.phase)
            (s.threads.set i ⟨k, RPhase.done none⟩)).length
            = if false = true then 1 else 0
        rw [if_neg (by decide)]
        omega
      · exact forall_mem_set hB (by intro hb; cases hb)
      · exact forall_mem_set hE (by intro id hb; cases hb)
      · exact forall_mem_set hF (by intro id hb; cases hb)

/-- Specialisation of the counting lemma with both side-counts
evaluated. -/
theorem length_filter_set_eval {α : Type} (p : α → Bool) (l : List α)
    (i : Nat) (a b : α) (h : l[i]? = some a) (na nb : Nat)
    (ha : (if p a then 1 else 0) = na) (hb : (if p b then 1 else 0) = nb) :
    ((l.set i b).filter p).length + na = (l.filter p).length + nb := by
  rw [← ha, ← hb]
  exact length_filter_set p l i a b h

/-- Every failure-free step preserves the NewDB accounting. -/
theorem InvA_step {l : RLabel} {s t : RSys}
    (hA : InvA s) (hst : RStep false l s t) : InvA t := by
  cases hst with
  | @rlock s i k ht hwf =>
      intro k2
      have hcnt := length_filter_set_eval
        (fun t => t.key == k2 && t.phase == RPhase.building)
        s.threads i ⟨k, .start⟩ ⟨k, .rlocked⟩ ht 0 0 (by simp) (by simp)
      have hA2 := hA k2
      simp only [bcount] at hA2 ⊢
      omega
  | @rcheck s i k ht =>
      intro k2
      have hcnt := length_filter_set_eval
        (fun t => t.key == k2 && t.phase == RPhase.building)
        s.threads i ⟨k, .rlocked⟩ ⟨k, .rchecked (s.conns k)⟩ ht 0 0
        (by simp) (by simp)
      have hA2 := hA k2
      simp only [bcount] at hA2 ⊢
      omega
  | @runlockHit s i k id ht =>
      intro k2
      have hcnt := length_filter_set_eval
        (fun t => t.key == k2 && t.phase == RPhase.building)
        s.threads i ⟨k, .rchecked (some id)⟩ ⟨k, .done (some id)⟩ ht 0 0
        (by simp) (by simp)
      have hA2 := hA k2
      simp only [bcount] at hA2 ⊢
      omega
  | @runlockMiss s i k ht =>
      intro k2
      have hcnt := length_filter_set_eval
        (fun t => t.key == k2 && t.phase == RPhase.building)
        s.threads i ⟨k, .rchecked none⟩ ⟨k, .wwait⟩ ht 0 0
        (by simp) (by simp)
      have hA2 := hA k2
      simp only [bcount] at hA2 ⊢
      omega
  | @wlock s i k ht hr hwf =>
      intro k2
      have hcnt := length_filter_set_eval
        (fun t => t.key == k2 && t.phase == RPhase.building)
        s.threads i ⟨k, .wwait⟩ ⟨k, .wlocked⟩ ht 0 0 (by simp) (by simp)
      have hA2 := hA k2
      simp only [bcount] at hA2 ⊢
      omega
  | @wcheckHit s i k id ht hc =>
      intro k2
      have hcnt := length_filter_set_eval
        (fun t => t.key == k2 && t.phase == RPhase.building)
        s.threads i ⟨k, .wlocked⟩ ⟨k, .done (some id)⟩ ht 0 0
        (by simp) (by simp)
      have hA2 := hA k2
      simp only [bcount] at hA2 ⊢
      omega
  | @wcheckMiss s i k ht hc =>
      intro k2
      by_cases he : k2 = k
      · have hcnt := length_filter_set_eval
          (fun t => t.key == k2 && t.phase == RPhase.building)
          s.threads i ⟨k, .wlocked⟩ ⟨k, .building⟩ ht 0 1
          (by simp) (by simp [he])
        have hA2 := hA k2
        simp only [bcount] at hA2 ⊢
        rw [show bump s.attempts k k2 = s.attempts k2 + 1 from by
          simp [bump, he]]
        omega
      · have hne : k ≠ k2 := fun hh => he hh.symm
        have hcnt := length_filter_set_eval
          (fun t => t.key == k2 && t.phase == RPhase.building)
          s.threads i ⟨k, .wlocked⟩ ⟨k, .building⟩ ht 0 0
          (by simp) (by simp [hne])
        have hA2 := hA k2
        simp only [bcount] at hA2 ⊢
        rw [show bump s.attempts k k2 = s.attempts k2 from by
          simp [bump, he]]
        omega
  | @buildOk s i k ht =>
      intro k2
      by_cases he : k2 = k
      · have hcnt := length_filter_set_eval
          (fun t => t.key == k2 && t.phase == RPhase.building)
          s.threads i ⟨k, .building⟩ ⟨k, .done (some s.nextId)⟩ ht 1 0
          (by simp [he]) (by simp)
        have hA2 := hA k2
        simp only [bcount] at hA2 ⊢
        rw [show bump s.successes k k2 = s.successes k2 + 1 from by
          simp [bump, he]]
        omega
      · have hne : k ≠ k2 := fun hh => he hh.symm
        have hcnt := length_filter_set_eval
          (fun t => t.key == k2 && t.phase == RPhase.building)
          s.threads i ⟨k, .building⟩ ⟨k, .done (some s.nextId)⟩ ht 0 0
          (by simp [hne]) (by simp)
        have hA2 := hA k2
        simp only [bcount] at hA2 ⊢
        rw [show bump s.successes k k2 = s.successes k2 from by
          simp [bump, he]]
        omega
  | @buildFail s i k hcf ht =>
      exact absurd hcf (by decide)

/-- The invariant holds along every execution. -/
theorem Inv_reach {cf : Bool} {s0 s : RSys}
    (h : Reach cf s0 s) (h0 : Inv s0) : Inv s := by
  induction h with
  | refl => exact h0
  | tail hr hs ih => exact Inv_step ih hs

/-- The accounting holds along every failure-free execution. -/
theorem InvA_reach {s0 s : RSys}
    (h : Reach false s0 s) (h0 : InvA s0) : InvA s := by
  induction h with
  | refl => exact h0
  | tail hr hs ih => exact InvA_step ih hs

theorem initSys_threads_start (ks : List String) :
    ∀ t ∈ (initSys ks).threads, t.phase = .start := by
  intro t ht
  simp only [initSys, List.mem_map] at ht
  obtain ⟨k, _, rfl⟩ := ht
  rfl

theorem initSys_filter_empty (ks : List String) (p : RThread → Bool)
    (hp : ∀ k : String, p ⟨k, .start⟩ = false) :
    (initSys ks).threads.filter p = [] := by
  rw [List.filter_eq_nil_iff]
  intro t ht
  have hs := initSys_threads_start ks t ht
  intro hpt
  obtain ⟨k, ph⟩ := t
  simp only at hs
  subst hs
  rw [hp k] at hpt
  cases hpt

/-- The invariant holds initially. -/
theorem Inv_init (ks : List String) : Inv (initSys ks) := by
  refine ⟨?_, ?_, ?_, ?_, ?_, ?_⟩
  · show (List.filter (fun t => holdsWrite t.phase)
        (initSys ks).threads).length = if false = true then 1 else 0
    rw [initSys_filter_empty ks (fun t => holdsWrite t.phase) (fun k => rfl),
      if_neg (by decide)]
    rfl
  · intro t ht hb
    rw [initSys_threads_start ks t ht] at hb
    cases hb
  · intro k _; rfl
  · intro k; exact Nat.zero_le 1
  · intro t ht id hd
    rw [initSys_threads_start ks t ht] at hd
    cases hd
  · intro t ht id hd
    rw [initSys_threads_start ks t ht] at hd
    cases hd

/-- The accounting holds initially. -/
theorem InvA_init (ks : List String) : InvA (initSys ks) := by
  intro k
  show (0 : Nat) = 0 + bcount (initSys ks) k
  rw [bcount, initSys_filter_empty ks _ (fun k2 => by simp)]
  rfl

/-! ## Claim theorems -/

/-- The bundle the middleware obtains from a request's cookie, when
every decode stage succeeds. -/
def cookieBundle (r : AuthRequest) : Option JsonFields :=
  match r.cookie with
  | none => none
  | some cv =>
      match decodeB64 (trimB64Marker cv) with
      | none => none
      | some bytes =>
          match jsonUnmarshal (bytes.map Char.ofNat) with
          | some (.obj fs) => some fs
          | _ => none

/-- On a non-bypass request with a fetchable key set and a decodable
cookie, the middleware continues with the decoded bundle. -/
theorem authMiddleware_decode (cfg : Config) (env : AuthEnv)
    (r : AuthRequest) (j : Nat) (fs : JsonFields)
    (hby : matchesExcluded r.path = false)
    (hj : env.fetchJWKS cfg.jwksUrl = some j)
    (hb : cookieBundle r = some fs) :
    authMiddleware cfg env r = authTokenStage cfg env j fs := by
  unfold authMiddleware
  unfold cookieBundle at hb
  rw [hby, hj]
  rcases hcv : r.cookie with _ | cv
  · rw [hcv] at hb
    simp at hb
  · rw [hcv] at hb
    simp only [Option.some.injEq] at hb
    rcases hd : decodeB64 (trimB64Marker cv) with _ | bytes
    · rw [hd] at hb
      simp at hb
    · rw [hd] at hb
      simp only [Option.some.injEq] at hb
      rcases hu : jsonUnmarshal (bytes.map Char.ofNat) with _ | v
      · rw [hu] at hb
        simp at hb
      · rw [hu] at hb
        cases v with
        | obj fs2 =>
            simp only [Option.some.injEq] at hb
            subst hb
            simp [hd, hu]
        | null => simp at hb
        | bool b => simp at hb
        | num n => simp at hb
        | str st => simp at hb
        | arr xs => simp at hb

/-- Fixed demo configuration. -/
def cfgDemo : Config :=
  ⟨"https://id.example/jwks", "auth-token", "https://id.example/refresh",
    "refresh-key", "example.com"⟩

/-- Demo oracles: the key-set fetch succeeds, every verification and
refresh fails, cookie marshalling succeeds. -/
def envDemo : AuthEnv :=
  ⟨fun _ => some 0, fun _ _ => none, fun _ _ _ => none, false⟩

/-- Claim C1, counterexample: for the request with path "/x" and no
cookie, the middleware does return the 401 authentication-required
failure, but it performs the JWKS key-set fetch (a network call) before
reading the cookie, contradicting "makes no network calls: neither the
JWKS key-set fetch nor the refresh endpoint is invoked before the
missing-cookie failure is returned". -/
theorem authNoCookie_jwks_called :
    (authMiddleware cfgDemo envDemo ⟨"/x", none⟩).outcome
      = .err (unauthorized "Authentication required")
    ∧ (authMiddleware cfgDemo envDemo ⟨"/x", none⟩).events.count
        .jwksFetch ≠ 0 := by
  constructor
  · rfl
  · have h : (authMiddleware cfgDemo envDemo ⟨"/x", none⟩).events.count
        AuthEvent.jwksFetch = 1 := rfl
    omega

/-- Claim C1 (amended): for every request whose path does not match a
bypass pattern and that carries no auth cookie, when the JWKS fetch
succeeds the middleware returns 401 Unauthorized ("Authentication
required"); the JWKS fetch is the one network call it performs before
that failure — it happens before the cookie check — and the refresh
endpoint is never invoked. -/
theorem authNoCookie_unauthorized (cfg : Config) (env : AuthEnv)
    (r : AuthRequest) (j : Nat)
    (hby : matchesExcluded r.path = false)
    (hj : env.fetchJWKS cfg.jwksUrl = some j)
    (hc : r.cookie = none) :
    authMiddleware cfg env r
      = ⟨.err (unauthorized "Authentication required"),
          [.jwksFetch, .cookieRead], none⟩ := by
  unfold authMiddleware
  rw [hby, hj, hc]
  rfl

/-- Claim C1 witness. -/
theorem authNoCookie_unauthorized_witness :
    matchesExcluded "/x" = false
    ∧ envDemo.fetchJWKS cfgDemo.jwksUrl = some 0
    ∧ authMiddleware cfgDemo envDemo ⟨"/x", none⟩
        = ⟨.err (unauthorized "Authentication required"),
            [.jwksFetch, .cookieRead], none⟩ :=
  ⟨rfl, rfl, authNoCookie_unauthorized cfgDemo envDemo ⟨"/x", none⟩ 0 rfl rfl rfl⟩

/-- Claim C8: a request whose path matches a bypass pattern invokes
the next handler unconditionally on the original request — no JWKS
fetch, no cookie read, no decode, no verification, no refresh call (the
event list is empty), regardless of cookie presence or validity; the
bypass check is evaluated before any cookie or JWKS work. -/
theorem bypass_skips_auth (cfg : Config) (env : AuthEnv) (r : AuthRequest)
    (h : matchesExcluded r.path = true) :
    authMiddleware cfg env r = ⟨.nextUnchanged, [], none⟩ := by
  unfold authMiddleware
  rw [h]
  rfl

/-- Claim C8 witness: favicon requests bypass even with a garbage
cookie present. -/
theorem bypass_skips_auth_witness :
    matchesExcluded "/favicon.ico" = true
    ∧ authMiddleware cfgDemo envDemo ⟨"/favicon.ico", some ['x']⟩
        = ⟨.nextUnchanged, [], none⟩ :=
  ⟨rfl, bypass_skips_auth cfgDemo envDemo ⟨"/favicon.ico", some ['x']⟩ rfl⟩

/-- Claim C4: in any single request the middleware invokes the refresh
endpoint at most once; when verification fails and the bundle's
refresh_token is absent, not a string, or empty, it returns 401 with
zero refresh calls; when the refresh call fails, or re-verification of
the refreshed access token fails, it returns 401 without a second
refresh attempt. -/
theorem refresh_at_most_once (cfg : Config) (env : AuthEnv)
    (r : AuthRequest) :
    ((authMiddleware cfg env r).events.count .refreshCall ≤ 1)
    ∧ (∀ (j : Nat) (fs : JsonFields) (a : String),
        matchesExcluded r.path = false →
        env.fetchJWKS cfg.jwksUrl = some j →
        cookieBundle r = some fs →
        lookupField fs "access_token" = some (.str a) →
        env.verify j a = none →
        ((∀ rt, lookupField fs "refresh_token" = some (.str rt) → rt = "") →
          authMiddleware cfg env r
            = ⟨.err (unauthorized "Invalid token and no refresh token available"),
                evPre ++ [.verifyCall], none⟩)
        ∧ (∀ rt, lookupField fs "refresh_token" = some (.str rt) → rt ≠ "" →
            (env.refresh rt cfg.tokenRefreshUrl cfg.tokenRefreshKey = none →
              authMiddleware cfg env r
                = ⟨.err (unauthorized "Token refresh failed"),
                    evPre ++ [.verifyCall, .refreshCall], none⟩)
            ∧ (∀ resp,
                env.refresh rt cfg.tokenRefreshUrl cfg.tokenRefreshKey
                  = some resp →
                env.verify j resp.accessToken = none →
                authMiddleware cfg env r
                  = ⟨.err (unauthorized "Invalid refreshed token"),
                      evPre ++ [.verifyCall, .refreshCall, .verifyCall],
                      updateAuthCookie env.marshalFails (mergeRefresh fs resp)
                        cfg.authTokenName cfg.cookieDomain⟩))) := by
  constructor
  · unfold authMiddleware authTokenStage authRefreshStage authVerified
    repeat' split
    all_goals simp [evPre, List.count_cons, List.count_nil]
  · intro j fs a hby hj hb hacc hver
    have hmw := authMiddleware_decode cfg env r j fs hby hj hb
    have hstage : authTokenStage cfg env j fs = authRefreshStage cfg env j fs := by
      unfold authTokenStage
      rw [hacc]
      simp [hver]
    constructor
    · intro hempty
      rw [hmw, hstage]
      unfold authRefreshStage
      rcases hrt : lookupField fs "refresh_token" with _ | v
      · rfl
      · cases v with
        | str rt =>
            have : rt = "" := hempty rt hrt
            subst this
            simp
        | null => rfl
        | bool b => rfl
        | num n => rfl
        | arr xs => rfl
        | obj fs2 => rfl
    · intro rt hrt hne
      rw [hmw, hstage]
      unfold authRefreshStage
      rw [hrt]
      constructor
      · intro hre
        simp [hne, hre]
      · intro resp hre hver2
        simp [hne, hre, hver2]

/-- Demo bundle with an empty refresh token. -/
def fsDemo : JsonFields :=
  .cons "access_token" (.str "a") (.cons "refresh_token" (.str "") .nil)

/-- Demo request carrying the encoded demo bundle. -/
def reqDemo : AuthRequest := ⟨"/api/db", some (cookieValueOf fsDemo)⟩

/-- Claim C4 witness: expired access token plus empty refresh token
gives an immediate 401 with zero refresh calls. -/
theorem refresh_at_most_once_witness :
    (authMiddleware cfgDemo envDemo reqDemo).events.count .refreshCall ≤ 1
    ∧ authMiddleware cfgDemo envDemo reqDemo
        = ⟨.err (unauthorized "Invalid token and no refresh token available"),
            evPre ++ [.verifyCall], none⟩ := by
  refine ⟨(refresh_at_most_once cfgDemo envDemo reqDemo).1, ?_⟩
  exact ((refresh_at_most_once cfgDemo envDemo reqDemo).2 0 fsDemo "a"
    rfl rfl rfl rfl rfl).1
    (fun rt hh => (Json.str.inj (Option.some.inj hh)).symm)

/-- Claim C9: during the refresh path, a failure to persist the
updated cookie (UpdateAuthCookie returning an error, only possible as
a marshalling failure) does not fail the request: the error is only
logged, the middleware still re-verifies the refreshed access token,
and the request completes with the refreshed identity while no
Set-Cookie is written (the client keeps the stale cookie). -/
theorem cookie_update_failure_nonfatal (cfg : Config) (env : AuthEnv)
    (r : AuthRequest) (j : Nat) (fs : JsonFields) (a rt : String)
    (resp : RefreshTokenResponse) (cm : JsonFields)
    (hby : matchesExcluded r.path = false)
    (hj : env.fetchJWKS cfg.jwksUrl = some j)
    (hb : cookieBundle r = some fs)
    (hacc : lookupField fs "access_token" = some (.str a))
    (hver : env.verify j a = none)
    (hrt : lookupField fs "refresh_token" = some (.str rt))
    (hne : rt ≠ "")
    (hre : env.refresh rt cfg.tokenRefreshUrl cfg.tokenRefreshKey = some resp)
    (hmf : env.marshalFails = true)
    (hver2 : env.verify j resp.accessToken = some ⟨some cm⟩) :
    authMiddleware cfg env r
      = ⟨.nextAuthed (lookupField cm "sub"),
          evPre ++ [.verifyCall, .refreshCall, .verifyCall], none⟩ := by
  have hmw := authMiddleware_decode cfg env r j fs hby hj hb
  have hstage : authTokenStage cfg env j fs = authRefreshStage cfg env j fs := by
    unfold authTokenStage
    rw [hacc]
    simp [hver]
  rw [hmw, hstage]
  unfold authRefreshStage
  rw [hrt]
  simp [hne, hre, hver2, updateAuthCookie, hmf, authVerified]

/-- Demo claims carried by the refreshed token. -/
def cmDemo : JsonFields := .cons "sub" (.str "u1") .nil

/-- Demo refresh response. -/
def respDemo : RefreshTokenResponse :=
  ⟨"newacc", "bearer", 3600, 1700000000, "newref",
    .obj (.cons "id" (.str "u1") .nil)⟩

/-- Demo bundle with a usable refresh token and an extra field. -/
def fsDemo2 : JsonFields :=
  .cons "access_token" (.str "old")
    (.cons "refresh_token" (.str "r1")
      (.cons "extra" (.bool true) .nil))

/-- Demo request carrying the encoded second bundle. -/
def reqDemo2 : AuthRequest := ⟨"/api/db", some (cookieValueOf fsDemo2)⟩

/-- Demo oracles where only the refreshed access token verifies and
cookie marshalling fails. -/
def envDemo2 : AuthEnv :=
  ⟨fun _ => some 0,
    fun _ tok => if tok = "newacc" then some ⟨some cmDemo⟩ else none,
    fun _ _ _ => some respDemo, true⟩

/-- Claim C9 witness. -/
theorem cookie_update_failure_nonfatal_witness :
    envDemo2.marshalFails = true
    ∧ authMiddleware cfgDemo envDemo2 reqDemo2
        = ⟨.nextAuthed (some (.str "u1")),
            evPre ++ [.verifyCall, .refreshCall, .verifyCall], none⟩ :=
  ⟨rfl, cookie_update_failure_nonfatal cfgDemo envDemo2 reqDemo2 0 fsDemo2
    "old" "r1" respDemo cmDemo rfl rfl rfl rfl rfl rfl
    (by decide) rfl rfl rfl⟩

/-- Claim C3: after a successful refresh the middleware overwrites
exactly access_token, refresh_token, expires_at and user with the
response's values, leaves every other field unchanged, and writes a
cookie whose value is the marker "base64-" plus the base64 of the JSON
of the updated bundle — so stripping the marker, base64-decoding and
JSON-parsing the emitted cookie yields access and refresh tokens equal
to those returned by the refresh endpoint; the cookie is HttpOnly,
Secure, SameSite=Lax, on the configured domain with Path=/. -/
theorem refresh_cookie_roundtrip (cfg : Config) (env : AuthEnv)
    (r : AuthRequest) (j : Nat) (fs : JsonFields) (a rt : String)
    (resp : RefreshTokenResponse)
    (hby : matchesExcluded r.path = false)
    (hj : env.fetchJWKS cfg.jwksUrl = some j)
    (hb : cookieBundle r = some fs)
    (hacc : lookupField fs "access_token" = some (.str a))
    (hver : env.verify j a = none)
    (hrt : lookupField fs "refresh_token" = some (.str rt))
    (hne : rt ≠ "")
    (hre : env.refresh rt cfg.tokenRefreshUrl cfg.tokenRefreshKey = some resp)
    (hmf : env.marshalFails = false)
    (hwf : wfJsonFields (mergeRefresh fs resp) = true) :
    (authMiddleware cfg env r).cookieSet
        = some ⟨cfg.authTokenName,
            b64Marker ++ encodeB64 (strBytes (printJson (.obj (mergeRefresh fs resp)))),
            "/", cfg.cookieDomain, true, true, "Lax"⟩
    ∧ decodeCookieValue (cookieValueOf (mergeRefresh fs resp))
        = some (mergeRefresh fs resp)
    ∧ lookupField (mergeRefresh fs resp) "access_token"
        = some (.str resp.accessToken)
    ∧ lookupField (mergeRefresh fs resp) "refresh_token"
        = some (.str resp.refreshToken)
    ∧ lookupField (mergeRefresh fs resp) "expires_at"
        = some (.num resp.expiresAt)
    ∧ lookupField (mergeRefresh fs resp) "user" = some resp.user
    ∧ ∀ k2, k2 ≠ "access_token" → k2 ≠ "refresh_token" →
        k2 ≠ "expires_at" → k2 ≠ "user" →
        lookupField (mergeRefresh fs resp) k2 = lookupField fs k2 := by
  have hmw := authMiddleware_decode cfg env r j fs hby hj hb
  have hstage : authTokenStage cfg env j fs = authRefreshStage cfg env j fs := by
    unfold authTokenStage
    rw [hacc]
    simp [hver]
  refine ⟨?_, ?_, ?_, ?_, ?_, ?_, ?_⟩
  · rw [hmw, hstage]
    unfold authRefreshStage
    rw [hrt]
    rcases hv2 : env.verify j resp.accessToken with _ | tok
    · simp [hne, hre, hv2, updateAuthCookie, hmf, cookieValueOf]
    · rcases tok with ⟨_ | cm⟩
      · simp [hne, hre, hv2, updateAuthCookie, hmf, authVerified, cookieValueOf]
      · simp [hne, hre, hv2, updateAuthCookie, hmf, authVerified, cookieValueOf]
  · exact decodeCookieValue_cookieValueOf _ hwf
  · unfold mergeRefresh
    rw [lookupField_setField_other _ _ _ _ (by decide),
      lookupField_setField_other _ _ _ _ (by decide),
      lookupField_setField_other _ _ _ _ (by decide),
      lookupField_setField_self]
  · unfold mergeRefresh
    rw [lookupField_setField_other _ _ _ _ (by decide),
      lookupField_setField_other _ _ _ _ (by decide),
      lookupField_setField_self]
  · unfold mergeRefresh
    rw [lookupField_setField_other _ _ _ _ (by decide),
      lookupField_setField_self]
  · unfold mergeRefresh
    rw [lookupField_setField_self]
  · intro k2 h1 h2 h3 h4
    unfold mergeRefresh
    rw [lookupField_setField_other _ _ _ _ h4,
      lookupField_setField_other _ _ _ _ h3,
      lookupField_setField_other _ _ _ _ h2,
      lookupField_setField_other _ _ _ _ h1]

/-- Demo oracles as envDemo2 but with cookie marshalling succeeding. -/
def envDemo3 : AuthEnv :=
  ⟨fun _ => some 0,
    fun _ tok => if tok = "newacc" then some ⟨some cmDemo⟩ else none,
    fun _ _ _ => some respDemo, false⟩

/-- Claim C3 witness: concrete merged bundle round-trips through the
emitted cookie and preserves the extra field. -/
theorem refresh_cookie_roundtrip_witness :
    (authMiddleware cfgDemo envDemo3 reqDemo2).cookieSet
        = some ⟨cfgDemo.authTokenName,
            b64Marker ++ encodeB64 (strBytes (printJson
              (.obj (mergeRefresh fsDemo2 respDemo)))),
            "/", cfgDemo.cookieDomain, true, true, "Lax"⟩
    ∧ decodeCookieValue (cookieValueOf (mergeRefresh fsDemo2 respDemo))
        = some (mergeRefresh fsDemo2 respDemo)
    ∧ lookupField (mergeRefresh fsDemo2 respDemo) "access_token"
        = some (.str "newacc")
    ∧ lookupField (mergeRefresh fsDemo2 respDemo) "refresh_token"
        = some (.str "newref")
    ∧ lookupField (mergeRefresh fsDemo2 respDemo) "extra"
        = some (.bool true) := by
  have h := refresh_cookie_roundtrip cfgDemo envDemo3 reqDemo2 0 fsDemo2
    "old" "r1" respDemo rfl rfl rfl rfl rfl rfl
    (by decide) rfl rfl rfl
  refine ⟨h.1, h.2.1, h.2.2.1, h.2.2.2.1, ?_⟩
  have hp := h.2.2.2.2.2.2 "extra" (by decide) (by decide) (by decide)
    (by decide)
  rw [hp]
  rfl

/-- Claim C5: Start wraps the dispatcher with the registered
middlewares from last-registered to first-registered, so the composite
is m1 (m2 (... mk d ...)) with the first-registered middleware
outermost; on an instrumented pipeline the ingress events appear in
registration order before the handler and the egress events in reverse
registration order after it (LIFO composition). -/
theorem middleware_lifo_composition :
    (∀ (α : Type) (m1 m2 : α → α) (ms : List (α → α)) (d : α),
        applyMiddlewares (m1 :: m2 :: ms) d
          = m1 (m2 (applyMiddlewares ms d)))
    ∧ ∀ (l : List Nat),
        applyMiddlewares (l.map traceMiddleware) baseHandler ()
          = l.map PhaseEvent.ingress ++
              PhaseEvent.handler :: (l.reverse).map PhaseEvent.egress := by
  constructor
  · intro α m1 m2 ms d
    rw [applyMiddlewares_cons, applyMiddlewares_cons]
  · exact applyMiddlewares_trace

/-- Claim C6: the dispatcher built for a pattern invokes exactly the
handler of the first route, in registration order, whose method is the
wildcard "" or equals the request method; if no route matches it
answers Method-Not-Allowed and invokes no handler.  Registration
(addRoute) appends, so registration order is list order. -/
theorem dispatch_first_match (routes : List Route) (m : String) :
    (∀ r, routes.find? (fun q => decide (q.method = "" ∨ q.method = m))
            = some r →
        createMethodDispatcher routes m = .invoked r.handler)
    ∧ (routes.find? (fun q => decide (q.method = "" ∨ q.method = m)) = none →
        createMethodDispatcher routes m = .methodNotAllowed)
    ∧ ∀ (pre : List Route) (mth pat : String) (h : Nat),
        addRoute pre mth pat h = pre ++ [Route.mk mth pat h] := by
  refine ⟨?_, ?_, fun _ _ _ _ => rfl⟩
  · intro r hf
    induction routes with
    | nil => cases hf
    | cons q rest ih =>
        rw [List.find?_cons] at hf
        by_cases hq : q.method = "" ∨ q.method = m
        · rw [show decide (q.method = "" ∨ q.method = m) = true from
            by simpa using hq] at hf
          simp at hf
          subst hf
          unfold createMethodDispatcher
          rw [if_pos hq]
        · rw [show decide (q.method = "" ∨ q.method = m) = false from
            by simpa using hq] at hf
          unfold createMethodDispatcher
          rw [if_neg hq]
          exact ih hf
  · intro hf
    induction routes with
    | nil => rfl
    | cons q rest ih =>
        rw [List.find?_cons] at hf
        by_cases hq : q.method = "" ∨ q.method = m
        · rw [show decide (q.method = "" ∨ q.method = m) = true from
            by simpa using hq] at hf
          simp at hf
        · rw [show decide (q.method = "" ∨ q.method = m) = false from
            by simpa using hq] at hf
          unfold createMethodDispatcher
          rw [if_neg hq]
          exact ih hf

/-- Demo route table: a POST route, a GET route, then a wildcard. -/
def demoRoutes : List Route :=
  [⟨"POST", "/api/db", 1⟩, ⟨"GET", "/api/db", 2⟩, ⟨"", "/api/db", 3⟩]

/-- Claim C6 witness: on the demo table a GET picks the GET route (not
the earlier POST route nor the later wildcard), and on a table with no
match the dispatcher answers Method-Not-Allowed. -/
theorem dispatch_first_match_witness :
    (demoRoutes.find? (fun q => decide (q.method = "" ∨ q.method = "GET"))
        = some ⟨"GET", "/api/db", 2⟩
      ∧ createMethodDispatcher demoRoutes "GET" = .invoked 2)
    ∧ ([Route.mk "POST" "/x" 7].find?
          (fun q => decide (q.method = "" ∨ q.method = "GET")) = none
      ∧ createMethodDispatcher [Route.mk "POST" "/x" 7] "GET"
          = .methodNotAllowed) :=
  ⟨⟨by decide,
    (dispatch_first_match demoRoutes "GET").1 ⟨"GET", "/api/db", 2⟩
      (by decide)⟩,
   ⟨by decide,
    (dispatch_first_match [Route.mk "POST" "/x" 7] "GET").2.1 (by decide)⟩⟩

/-- Claim C7 counterexample: for the generic failure whose message is
the string "Error", the fixed 500 body "Internal Server Error" does
contain the failure's message as a substring, so the body is not free
of the failure's message for every failure.  The detail is still only
logged, and the body is the same fixed string for every generic
failure. -/
theorem handleError_generic_echo :
    handleError (.generic "Error")
        = ⟨500, "Internal Server Error", some "Error"⟩
    ∧ strContains "Internal Server Error" "Error" = true :=
  ⟨rfl, by decide⟩

/-- Claim C7 (amended): a status+message failure (HTTPError) is
written verbatim — exactly its code and its message; any other failure
is written as status 500 with the fixed body "Internal Server Error",
which does not depend on the failure's message, and the failure detail
goes only to the log. -/
theorem handleError_translation (e : GoError) :
    (∀ code msg, e = .http code msg → handleError e = ⟨code, msg, none⟩)
    ∧ ∀ msg, e = .generic msg →
        handleError e = ⟨500, "Internal Server Error", some msg⟩
        ∧ ∀ msg2, (handleError (.generic msg2)).body
            = (handleError (.generic msg)).body := by
  constructor
  · intro code msg h
    subst h
    rfl
  · intro msg h
    subst h
    exact ⟨rfl, fun _ => rfl⟩

/-- Claim C7 witness. -/
theorem handleError_translation_witness :
    handleError (.http 404 "missing") = ⟨404, "missing", none⟩
    ∧ handleError (.generic "boom")
        = ⟨500, "Internal Server Error", some "boom"⟩ :=
  ⟨(handleError_translation (.http 404 "missing")).1 404 "missing" rfl,
   ((handleError_translation (.generic "boom")).2 "boom" rfl).1⟩

/-- Claim C10: whenever the database middleware hands the request to
the next handler, the body the downstream handler reads is exactly the
bytes received (the reader is reinstalled over the identical bytes),
and the middleware's only failures are the four context/handle errors:
an unparseable body is never rejected at this stage. -/
theorem body_passthrough (env : DBEnv) (r : DBRequest) :
    (∀ b db, dbMiddleware env r = .next b db → b = r.body)
    ∧ ∀ e, dbMiddleware env r = .err e →
        e = badRequest "Missing user context"
        ∨ e = badRequest "Missing project ID"
        ∨ e = internalServerError "Missing working directory context"
        ∨ e = internalServerError "Failed to load database" := by
  constructor
  · intro b db h
    simp only [dbMiddleware] at h
    repeat' split at h
    all_goals simp_all
  · intro e h
    simp only [dbMiddleware] at h
    repeat' split at h
    all_goals simp_all

/-- Demo handle oracle always returning handle 7. -/
def envDBDemo : DBEnv := ⟨fun _ _ => some 7⟩

/-- Demo POST request carrying a body that is not JSON. -/
def dbReqDemo : DBRequest :=
  ⟨"POST", true, 8, "not json".data, some "u1", some "/work", "p1"⟩

/-- Claim C10 witness: the demo body is unparseable, yet the
middleware proceeds and the downstream body equals the received
bytes. -/
theorem body_passthrough_witness :
    jsonUnmarshal dbReqDemo.body = none
    ∧ dbMiddleware envDBDemo dbReqDemo = .next dbReqDemo.body (some 7)
    ∧ dbReqDemo.body = dbReqDemo.body :=
  ⟨rfl, rfl,
    (body_passthrough envDBDemo dbReqDemo).1 dbReqDemo.body (some 7) rfl⟩

/-- A reader taking the read lock does not disable another reader's
entry: RLock only requires the writer flag to be clear, never a bound
on the reader count. -/
theorem rlock_no_block {cf : Bool} {s t : RSys} {i j : Nat} {k2 : String}
    (hij : i ≠ j) (hstep : RStep cf (.rlock j) s t)
    (hi : s.threads[i]? = some ⟨k2, .start⟩) :
    t.threads[i]? = some ⟨k2, .start⟩ ∧ t.writer = false
    ∧ ∃ u, RStep cf (.rlock i) t u := by
  cases hstep with
  | @rlock s j kj htj hwf =>
      have hread : (s.threads.set j ⟨kj, .rlocked⟩)[i]? = s.threads[i]? :=
        List.getElem?_set_ne (Ne.symm hij)
      have ht2 : ({ s with
                    readers := s.readers + 1,
                    threads := s.threads.set j ⟨kj, .rlocked⟩ } :
          RSys).threads[i]? = some ⟨k2, .start⟩ := by
        show (s.threads.set j ⟨kj, .rlocked⟩)[i]? = some ⟨k2, .start⟩
        rw [hread]
        exact hi
      exact ⟨ht2, hwf, _, RStep.rlock ht2 hwf⟩

/-- Claim C2: in every interleaving of concurrent GetProjectDB calls
from the initial state, (a) for each key NewDB succeeds at most once;
(b) in failure-free executions NewDB is invoked at most once per key;
(c) any two callers of the same key that finish with a handle hold
the identical handle; (d) a reader entering the fast path never blocks
another reader: after one thread takes the read lock, any other
thread at the entry point can still take it. -/
theorem resolver_once_and_agree (cf : Bool) (ks : List String) (k : String)
    (s : RSys) (h : Reach cf (initSys ks) s) :
    s.successes k ≤ 1
    ∧ (cf = false → s.attempts k ≤ 1)
    ∧ (∀ t1 ∈ s.threads, ∀ t2 ∈ s.threads, ∀ id1 id2,
        t1.key = k → t2.key = k →
        t1.phase = .done (some id1) → t2.phase = .done (some id2) →
        id1 = id2)
    ∧ ∀ (i j : Nat) (t : RSys) (k2 : String), i ≠ j →
        RStep cf (.rlock j) s t →
        s.threads[i]? = some ⟨k2, .start⟩ →
        t.threads[i]? = some ⟨k2, .start⟩ ∧ t.writer = false
          ∧ ∃ u, RStep cf (.rlock i) t u := by
  obtain ⟨hW, hB, hC, hD, hE, hF⟩ := Inv_reach h (Inv_init ks)
  refine ⟨hD k, ?_, ?_, ?_⟩
  · intro hcf
    subst hcf
    have hA := InvA_reach h (InvA_init ks) k
    have hbw : bcount s k ≤ wcount s := by
      apply length_filter_mono
      intro t htq
      simp only [Bool.and_eq_true, beq_iff_eq] at htq
      rw [htq.2]
      rfl
    have hw1 : wcount s ≤ 1 := by
      rw [hW]
      split <;> omega
    by_cases hb0 : bcount s k = 0
    · have := hD k
      omega
    · have hpos : 0 < (s.threads.filter
          (fun t => t.key == k && t.phase == RPhase.building)).length :=
        Nat.pos_of_ne_zero hb0
      obtain ⟨t, htmem, htp⟩ := exists_mem_filter_of_pos hpos
      simp only [Bool.and_eq_true, beq_iff_eq] at htp
      have hcn : s.conns k = none := htp.1 ▸ hB t htmem htp.2
      have hs0 : s.successes k = 0 := hC k hcn
      omega
  · intro t1 h1 t2 h2 id1 id2 hk1 hk2 hp1 hp2
    have e1 : s.conns k = some id1 := hk1 ▸ hE t1 h1 id1 hp1
    have e2 : s.conns k = some id2 := hk2 ▸ hE t2 h2 id2 hp2
    exact Option.some.inj (e1.symm.trans e2)
  · intro i j t k2 hij hstep hi
    exact rlock_no_block hij hstep hi

/-- Two concurrent callers for the same key. -/
def demoKeys : List String := ["db", "db"]

/-- Demo interleaving, states after each step: caller 0 runs the whole
slow path (miss on the read check, write lock, miss again, build),
then caller 1 runs the fast path and reads the cached handle. -/
def dS1 : RSys := ⟨1, false, fun _ => none, 0, fun _ => 0, fun _ => 0,
  [⟨"db", .rlocked⟩, ⟨"db", .start⟩]⟩

def dS2 : RSys := ⟨1, false, fun _ => none, 0, fun _ => 0, fun _ => 0,
  [⟨"db", .rchecked none⟩, ⟨"db", .start⟩]⟩

def dS3 : RSys := ⟨0, false, fun _ => none, 0, fun _ => 0, fun _ => 0,
  [⟨"db", .wwait⟩, ⟨"db", .start⟩]⟩

def dS4 : RSys := ⟨0, true, fun _ => none, 0, fun _ => 0, fun _ => 0,
  [⟨"db", .wlocked⟩, ⟨"db", .start⟩]⟩

def dS5 : RSys := ⟨0, true, fun _ => none, 0,
  fun k2 => if k2 = "db" then 1 else 0, fun _ => 0,
  [⟨"db", .building⟩, ⟨"db", .start⟩]⟩

def dS6 : RSys := ⟨0, false,
  fun k2 => if k2 = "db" then some 0 else none, 1,
  fun k2 => if k2 = "db" then 1 else 0,
  fun k2 => if k2 = "db" then 1 else 0,
  [⟨"db", .done (some 0)⟩, ⟨"db", .start⟩]⟩

def dS7 : RSys := ⟨1, false,
  fun k2 => if k2 = "db" then some 0 else none, 1,
  fun k2 => if k2 = "db" then 1 else 0,
  fun k2 => if k2 = "db" then 1 else 0,
  [⟨"db", .done (some 0)⟩, ⟨"db", .rlocked⟩]⟩

def dS8 : RSys := ⟨1, false,
  fun k2 => if k2 = "db" then some 0 else none, 1,
  fun k2 => if k2 = "db" then 1 else 0,
  fun k2 => if k2 = "db" then 1 else 0,
  [⟨"db", .done (some 0)⟩, ⟨"db", .rchecked (some 0)⟩]⟩

/-- Demo final state: both callers finished with handle 0, one build. -/
def demoFinal : RSys := ⟨0, false,
  fun k2 => if k2 = "db" then some 0 else none, 1,
  fun k2 => if k2 = "db" then 1 else 0,
  fun k2 => if k2 = "db" then 1 else 0,
  [⟨"db", .done (some 0)⟩, ⟨"db", .done (some 0)⟩]⟩

/-- The demo interleaving is an execution of the protocol. -/
theorem resolver_demo_reach : Reach false (initSys demoKeys) demoFinal := by
  have h1 : RStep false (.rlock 0) (initSys demoKeys) dS1 :=
    @RStep.rlock false (initSys demoKeys) 0 "db" (by rfl) (by rfl)
  have h2 : RStep false (.rcheck 0) dS1 dS2 :=
    @RStep.rcheck false dS1 0 "db" (by rfl)
  have h3 : RStep false (.runlock 0) dS2 dS3 :=
    @RStep.runlockMiss false dS2 0 "db" (by rfl)
  have h4 : RStep false (.wlock 0) dS3 dS4 :=
    @RStep.wlock false dS3 0 "db" (by rfl) (by rfl) (by rfl)
  have h5 : RStep false (.wcheckMiss 0) dS4 dS5 :=
    @RStep.wcheckMiss false dS4 0 "db" (by rfl) (by rfl)
  have h6 : RStep false (.buildOk 0) dS5 dS6 :=
    @RStep.buildOk false dS5 0 "db" (by rfl)
  have h7 : RStep false (.rlock 1) dS6 dS7 :=
    @RStep.rlock false dS6 1 "db" (by rfl) (by rfl)
  have h8 : RStep false (.rcheck 1) dS7 dS8 :=
    @RStep.rcheck false dS7 1 "db" (by rfl)
  have h9 : RStep false (.runlock 1) dS8 demoFinal :=
    @RStep.runlockHit false dS8 1 "db" 0 (by rfl)
  exact Reach.tail (Reach.tail (Reach.tail (Reach.tail (Reach.tail
    (Reach.tail (Reach.tail (Reach.tail (Reach.tail (Reach.refl _)
      h1) h2) h3) h4) h5) h6) h7) h8) h9

/-- Claim C2 witness: in the demo run, both callers finish with the
identical handle, NewDB succeeded once and was attempted once. -/
theorem resolver_once_and_agree_witness :
    demoFinal.threads = [⟨"db", .done (some 0)⟩, ⟨"db", .done (some 0)⟩]
    ∧ demoFinal.successes "db" = 1
    ∧ demoFinal.attempts "db" = 1
    ∧ demoFinal.successes "db" ≤ 1
    ∧ demoFinal.attempts "db" ≤ 1 := by
  have h := resolver_once_and_agree false demoKeys "db" demoFinal
    resolver_demo_reach
  exact ⟨rfl, rfl, rfl, h.1, h.2.1 rfl⟩

end PebbleDB